import Mathlib

/-!
Shallow embedding of the `ohhi` repository (files `cp_solver.py` and `ohhi.py`),
together with theorems checking the natural-language specification against it.

Python conventions used throughout the embedding:
* a Python `dict` keyed by small tuples is modelled either as a total function
  (the `cells` grid, whose keys are exactly the grid coordinates) or as an
  association list (`vars` of the generic solver, where key errors matter);
* a Python runtime error (`TypeError`, `KeyError`, `UnboundLocalError`,
  `AssertionError`) is modelled by `Except PyErr`;
* unbounded `while` loops and unbounded recursion receive an explicit fuel
  argument; exhausting fuel yields the artificial `PyErr.fuelExhausted`,
  distinct from every genuine Python error;
* `print` calls are side effects with no influence on the returned data and are
  not modelled.
-/

/-- Runtime errors of the Python program (plus the fuel-exhaustion artifact of
the embedding). -/
inductive PyErr
  | typeError
  | keyError
  | unboundLocal
  | assertionError
  | fuelExhausted
deriving DecidableEq

/-- The `'state'` field of a problem: `'unsolved'`, `'solved'` or
`'infeasible'`. -/
inductive PState
  | unsolved
  | solved
  | infeasible
deriving DecidableEq

namespace CP

/-! ## `cp_solver.py` — the generic constraint-programming solver

A generic problem holds a `variables` dictionary (association list `vars`) and
a `state`.  The solver is dynamically typed in Python; the duck-typed
operations it performs on domain objects — `len(domain)` and iteration — are
passed as explicit parameters `len`/`iter`, and the value `None` that
`get_undecided_variable` can fall through to is the distinguished key
`noneK`. -/

/-- A generic problem dictionary: the `'variables'` mapping (as an association
list, the faithful rendering of an insertion-ordered Python dict) and the
`'state'` field. -/
structure GProblem (K V : Type) where
  vars : List (K × V)
  state : PState
deriving DecidableEq

/-- Python dict read `d[k]`: the value at the first matching key, `none` when
the key is absent (a `KeyError` at the call site). -/
def dictGet {K V : Type} [DecidableEq K] (d : List (K × V)) (k : K) : Option V :=
  (d.find? (fun kv => decide (kv.1 = k))).map (fun kv => kv.2)

/-- Python dict write `d[k] = v`: replace the value at an existing key in
place, or append a fresh binding. -/
def dictSet {K V : Type} [DecidableEq K] (d : List (K × V)) (k : K) (v : V) :
    List (K × V) :=
  if d.any (fun kv => decide (kv.1 = k)) then
    d.map (fun kv => if kv.1 = k then (k, v) else kv)
  else
    d ++ [(k, v)]

/-- `get_undecided_variable` (`cp_solver.py:21`): the first variable whose
domain has more than one value; Python's `None` (here `noneK`) when every
domain has length at most one. -/
def get_undecided_variable {K V : Type} (noneK : K) (len : V → Nat)
    (vars : List (K × V)) : K :=
  match vars.find? (fun kv => decide (1 < len kv.2)) with
  | some kv => kv.1
  | none => noneK

/-- `fix_variable` (`cp_solver.py:30`): a shallow copy of the problem whose
`variables` dict is copied and whose `pivot` entry is set to the raw chosen
`value`. -/
def fix_variable {K V : Type} [DecidableEq K] (p : GProblem K V) (pivot : K)
    (value : V) : GProblem K V :=
  { p with vars := dictSet p.vars pivot value }

/-- One evaluation of `any(constraint(problem) for constraint in constraints)`
(`cp_solver.py:18`): constraints are invoked in order, each mutating the
problem, and `any` stops at the first one that reports a change. -/
def runConstraints {σ : Type} : List (σ → σ × Bool) → σ → σ × Bool
  | [], s => (s, false)
  | c :: rest, s =>
    match c s with
    | (s', true) => (s', true)
    | (s', false) => runConstraints rest s'

/-- `propagate_constraints` (`cp_solver.py:6`): repeat cycles of
`runConstraints` while the previous cycle reported a change.  `fuel` bounds
the number of cycles; `none` is the fuel-exhaustion artifact. -/
def propagate_constraints {σ : Type} : Nat → List (σ → σ × Bool) → σ → Option σ
  | 0, _, _ => none
  | fuel + 1, cs, s =>
    match runConstraints cs s with
    | (s', true) => propagate_constraints fuel cs s'
    | (s', false) => some s'

/-- Modelled from the spec: a driver cycle that "invokes every propagator
exactly once per cycle", with no short-circuiting, recording whether any of
them reported a change.  This is the behaviour the spec ascribes to the
driver; it is compared against `runConstraints`, the behaviour of the code. -/
def runAllConstraints {σ : Type} (cs : List (σ → σ × Bool)) (s : σ) : σ × Bool :=
  cs.foldl (fun st c => let r := c st.1; (r.1, st.2 || r.2)) (s, false)

/-- Modelled from the spec: the driver that repeats full
`runAllConstraints` cycles while the previous cycle reported a change. -/
def propagate_constraints_once_per_cycle {σ : Type} :
    Nat → List (σ → σ × Bool) → σ → Option σ
  | 0, _, _ => none
  | fuel + 1, cs, s =>
    match runAllConstraints cs s with
    | (s', true) => propagate_constraints_once_per_cycle fuel cs s'
    | (s', false) => some s'

/-- The candidate loop of `solve` (`cp_solver.py:99`–`106`): iterate the pivot's
domain values, recurse (`rec`) on each branched problem, return the first
`'solved'` result; when the loop ends, return the last `candidate_sol` — an
`UnboundLocalError` when the loop body never executed. -/
def solveLoop {K V : Type} (fix : V → GProblem K V)
    (rec : GProblem K V → Except PyErr (GProblem K V)) :
    List V → Option (GProblem K V) → Except PyErr (GProblem K V)
  | [], none => .error .unboundLocal
  | [], some c => .ok c
  | v :: rest, _ =>
    match rec (fix v) with
    | .error e => .error e
    | .ok c =>
      if c.state = PState.solved then .ok c else solveLoop fix rec rest (some c)

/-- `solve` (`cp_solver.py:45`): propagate to fixpoint, evaluate the state,
return terminal problems as-is, otherwise branch on an undecided variable.
`pfuel` bounds each propagation loop, `fuel` the recursion depth. -/
def solve {K V : Type} [DecidableEq K] (noneK : K) (len : V → Nat)
    (iter : V → List V) (constraints : List (GProblem K V → GProblem K V × Bool))
    (evaluate_state : GProblem K V → GProblem K V) :
    Nat → Nat → GProblem K V → Except PyErr (GProblem K V)
  | _, 0, _ => .error .fuelExhausted
  | pfuel, fuel + 1, p =>
    match propagate_constraints pfuel constraints p with
    | none => .error .fuelExhausted
    | some p1 =>
      let p2 := evaluate_state p1
      if p2.state = PState.solved ∨ p2.state = PState.infeasible then .ok p2
      else
        let pivot := get_undecided_variable noneK len p2.vars
        match dictGet p2.vars pivot with
        | none => .error .keyError
        | some domain =>
          solveLoop (fun v => fix_variable p2 pivot v)
            (solve noneK len iter constraints evaluate_state pfuel fuel)
            (iter domain) none

end CP

namespace Ohhi

/-! ## `ohhi.py` — the 0hh1 puzzle instantiation

Cells hold one of the characters `'r'`, `'b'`, `'.'`.  The `cells` dict has
`(row, column)` integer tuples as keys (all arithmetic on coordinates is
Python integer arithmetic, so coordinates are modelled as `Int`); the grid
keys are exactly `[0, size) × [0, size)` and the embedding carries the map as
a total function on `Int × Int`. -/

/-- A cell value: `'r'`, `'b'` or `'.'`. -/
inductive Cell
  | r
  | b
  | dot
deriving DecidableEq

/-- A `(row, column)` key of the `cells` dict. -/
abbrev Ix := Int × Int

/-- The `cells` dict of a puzzle, as a total function on keys. -/
abbrev Cells := Ix → Cell

/-- A puzzle problem dictionary: `'size'`, `'cells'`, `'state'`. -/
structure Problem where
  size : Nat
  cells : Cells
  state : PState

/-- Dict update `cells[k] = v` on a map modelled as a function. -/
def upd (f : Cells) (k : Ix) (v : Cell) : Cells :=
  fun x => if x = k then v else f x

/-- The test `cell in 'rb'`. -/
def inRB : Cell → Bool
  | Cell.r => true
  | Cell.b => true
  | Cell.dot => false

/-- The test `cell == '.'`. -/
def isDot : Cell → Bool
  | Cell.dot => true
  | _ => false

/-- Python `range(a, b)` as a list of integers. -/
def irange (a b : Nat) : List Int :=
  (List.range (b - a)).map (fun i => ((a + i : Nat) : Int))

/-- The row-major list of grid keys of a `size`-sized puzzle (the iteration
order of the `cells` dict built by `read_problem`). -/
def gridIx (size : Nat) : List Ix :=
  (List.range size).flatMap (fun (row : Nat) =>
    (List.range size).map (fun (col : Nat) => ((row : Int), (col : Int))))

/-- Membership of a key in the grid of a `size`-sized puzzle. -/
def inGrid (size : Nat) (x : Ix) : Prop :=
  0 ≤ x.1 ∧ x.1 < (size : Int) ∧ 0 ≤ x.2 ∧ x.2 < (size : Int)

instance (size : Nat) (x : Ix) : Decidable (inGrid size x) := by
  unfold inGrid; infer_instance

/-- Translate one character of a puzzle file into a cell value. -/
def charToCell (c : Char) : Cell :=
  if c = 'r' then Cell.r else if c = 'b' then Cell.b else Cell.dot

/-- The filter `[c for c in line if c in '.rb']` of `read_problem`. -/
def keepAlphabet (line : List Char) : List Char :=
  line.filter (fun c => decide (c = '.') || decide (c = 'r') || decide (c = 'b'))

/-- `read_problem` (`ohhi.py:16`): the file is a list of lines (each line a
list of characters, trailing newline included); every character outside
`'.rb'` is discarded, then the assertion compares each line's remaining
length with the number of lines; on success the problem dict is built. -/
def read_problem (input : List (List Char)) : Except PyErr Problem :=
  let problem := input.map keepAlphabet
  let size := problem.length
  if problem.all (fun v => decide (v.length = size)) then
    .ok { size := size
          cells := fun rc => charToCell ((problem.getD rc.1.toNat []).getD rc.2.toNat '.')
          state := PState.unsolved }
  else
    .error .assertionError

/-- `solved` (`ohhi.py:49`): every value of the `cells` dict is in `'rb'`. -/
def solvedB (p : Problem) : Bool :=
  (gridIx p.size).all (fun rc => inRB (p.cells rc))

/-- A mask `[(r0, c0), (r1, c1)]` of `eliminate_contiguous_line`. -/
abbrev Mask := (Int × Int) × (Int × Int)

/-- Offset a grid key by a mask entry. -/
def addIx (x : Ix) (d : Int × Int) : Ix :=
  (x.1 + d.1, x.2 + d.2)

/-- The body of the double loop of `eliminate_contiguous_line`
(`ohhi.py:121`–`133`) at one scanned key, threading the `(cells, changes)`
state. -/
def ecl_step (mask : Mask) (st : Cells × Bool) (x : Ix) : Cells × Bool :=
  let this_cell := st.1 x
  if inRB this_cell then st
  else
    let cell1 := st.1 (addIx x mask.1)
    let cell2 := st.1 (addIx x mask.2)
    if cell1 = Cell.r ∧ cell2 = Cell.r then (upd st.1 x Cell.b, true)
    else if cell1 = Cell.b ∧ cell2 = Cell.b then (upd st.1 x Cell.r, true)
    else st

/-- The scan order `for row in rows: for col in cols` of
`eliminate_contiguous_line`. -/
def scanList (rows cols : List Int) : List Ix :=
  rows.flatMap (fun row => cols.map (fun col => (row, col)))

/-- `eliminate_contiguous_line` (`ohhi.py:106`): scan the given rows and
columns, setting each unset cell whose two mask neighbours are set to one
same colour to the other colour; returns the updated cells and the changes
flag. -/
def eliminate_contiguous_line (cells : Cells) (rows cols : List Int)
    (mask : Mask) : Cells × Bool :=
  (scanList rows cols).foldl (ecl_step mask) (cells, false)

/-- `eliminate_contiguous` (`ohhi.py:60`): the six directional applications of
`eliminate_contiguous_line`, with the changes flags OR-ed. -/
def eliminate_contiguous (p : Problem) : Cells × Bool :=
  let size := p.size
  let r1 := eliminate_contiguous_line p.cells (irange 0 (size - 2)) (irange 0 size) ((1, 0), (2, 0))
  let r2 := eliminate_contiguous_line r1.1 (irange 2 size) (irange 0 size) ((-1, 0), (-2, 0))
  let r3 := eliminate_contiguous_line r2.1 (irange 1 (size - 1)) (irange 0 size) ((1, 0), (-1, 0))
  let r4 := eliminate_contiguous_line r3.1 (irange 0 size) (irange 0 (size - 2)) ((0, 1), (0, 2))
  let r5 := eliminate_contiguous_line r4.1 (irange 0 size) (irange 2 size) ((0, -1), (0, -2))
  let r6 := eliminate_contiguous_line r5.1 (irange 0 size) (irange 1 (size - 1)) ((0, 1), (0, -1))
  (r6.1, r1.2 || r2.2 || r3.2 || r4.2 || r5.2 || r6.2)

/-- Python `len` applied to a generator expression: generators do not support
`len`, so the call raises `TypeError` whatever the generator would yield.
`full_colour` builds its colour counts this way (`ohhi.py:152`–`153`,
`167`–`168`); the argument records the generator the source builds. -/
def pyLenGen (_gen : List Nat) : Except PyErr Nat :=
  .error PyErr.typeError

/-- The row-update loop of `full_colour` (`ohhi.py:162`–`165`): set every
unset cell of the row to `nc`. -/
def full_colour_update_row (size : Nat) (row : Nat) (nc : Cell)
    (st : Cells × Bool) : Cells × Bool :=
  (List.range size).foldl
    (fun st (col : Nat) =>
      if st.1 ((row : Int), (col : Int)) = Cell.dot then
        (upd st.1 ((row : Int), (col : Int)) nc, true)
      else st)
    st

/-- The column-update loop of `full_colour` (`ohhi.py:178`–`181`). -/
def full_colour_update_col (size : Nat) (col : Nat) (nc : Cell)
    (st : Cells × Bool) : Cells × Bool :=
  (List.range size).foldl
    (fun st (row : Nat) =>
      if st.1 ((row : Int), (col : Int)) = Cell.dot then
        (upd st.1 ((row : Int), (col : Int)) nc, true)
      else st)
    st

/-- One iteration of the row loop of `full_colour` (`ohhi.py:151`–`165`).
The two `len(...)` calls on generator expressions raise `TypeError` before
anything else happens; the remainder of the body is translated faithfully
even though it is unreachable. -/
def full_colour_row (size : Nat) (st : Cells × Bool) (row : Nat) :
    Except PyErr (Cells × Bool) := do
  let cells := st.1
  let reds ← pyLenGen
    (((List.range size).filter
      (fun (col : Nat) => decide (cells ((row : Int), (col : Int)) = Cell.r))).map (fun _ => 1))
  let blues ← pyLenGen
    (((List.range size).filter
      (fun (col : Nat) => decide (cells ((row : Int), (col : Int)) = Cell.b))).map (fun _ => 1))
  let cells_same_colour := size / 2
  if reds = cells_same_colour ∧ blues = cells_same_colour then pure st
  else if reds = cells_same_colour then pure (full_colour_update_row size row Cell.b st)
  else if blues = cells_same_colour then pure (full_colour_update_row size row Cell.r st)
  else pure st

/-- One iteration of the column loop of `full_colour` (`ohhi.py:166`–`181`). -/
def full_colour_col (size : Nat) (st : Cells × Bool) (col : Nat) :
    Except PyErr (Cells × Bool) := do
  let cells := st.1
  let reds ← pyLenGen
    (((List.range size).filter
      (fun (row : Nat) => decide (cells ((row : Int), (col : Int)) = Cell.r))).map (fun _ => 1))
  let blues ← pyLenGen
    (((List.range size).filter
      (fun (row : Nat) => decide (cells ((row : Int), (col : Int)) = Cell.b))).map (fun _ => 1))
  let cells_same_colour := size / 2
  if reds = cells_same_colour ∧ blues = cells_same_colour then pure st
  else if reds = cells_same_colour then pure (full_colour_update_col size col Cell.b st)
  else if blues = cells_same_colour then pure (full_colour_update_col size col Cell.r st)
  else pure st

/-- `full_colour` (`ohhi.py:137`): the row loop then the column loop, threading
the `(cells, changes)` state; on a `TypeError` the `Except` carries the error
out (no cell has been written at that point). -/
def full_colour (p : Problem) : Except PyErr (Cells × Bool) := do
  let st ← (List.range p.size).foldlM (full_colour_row p.size) (p.cells, false)
  let st ← (List.range p.size).foldlM (full_colour_col p.size) st
  pure st

/-- A column of the grid as the list `[cells[(row, c)] for row in range(size)]`
(`ohhi.py:217`). -/
def colOf (cells : Cells) (size : Nat) (c : Nat) : List Cell :=
  (List.range size).map (fun (row : Nat) => cells ((row : Int), (c : Int)))

/-- A row of the grid as a list (`ohhi.py:248`). -/
def rowOf (cells : Cells) (size : Nat) (r : Nat) : List Cell :=
  (List.range size).map (fun (col : Nat) => cells ((r : Int), (col : Int)))

/-- `sum(1 for cell in line if cell == x)`. -/
def countColour (l : List Cell) (x : Cell) : Nat :=
  (l.filter (fun c => decide (c = x))).length

/-- `sum(1 for c1, c2 in zip(l1, l2) if c1 == c2 == x)`. -/
def sameColour (l1 l2 : List Cell) (x : Cell) : Nat :=
  ((l1.zip l2).filter (fun cc => decide (cc.1 = x) && decide (cc.2 = x))).length

/-- The three-in-a-line scan `line[pos] == line[pos+1] == line[pos+2] != '.'`
over `pos in range(size - 2)` (`ohhi.py:229`, `259`). -/
def hasTriple (size : Nat) (l : List Cell) : Bool :=
  (List.range (size - 2)).any (fun pos =>
    decide (l.getD pos Cell.dot = l.getD (pos + 1) Cell.dot) &&
    decide (l.getD (pos + 1) Cell.dot = l.getD (pos + 2) Cell.dot) &&
    !(isDot (l.getD (pos + 2) Cell.dot)))

/-- The per-line checks of `evaluate_status`: more than `size // 2` reds, more
than `size // 2` blues, or three adjacent same-coloured cells. -/
def lineViolationB (size : Nat) (l : List Cell) : Bool :=
  decide (size / 2 < countColour l Cell.r) ||
  decide (size / 2 < countColour l Cell.b) ||
  hasTriple size l

/-- The duplicate-line check of `evaluate_status` (`ohhi.py:237`–`242`): the
two lines share at least `size // 2` positions set to the same colour. -/
def dupViolationB (size : Nat) (l1 l2 : List Cell) : Bool :=
  decide (size / 2 ≤ sameColour l1 l2 Cell.r) ||
  decide (size / 2 ≤ sameColour l1 l2 Cell.b)

/-- Python `range(a, b)` as a list of naturals. -/
def rangeFrom (a b : Nat) : List Nat :=
  (List.range (b - a)).map (fun i => a + i)

/-- Whether the scan of `evaluate_status` (`ohhi.py:215`–`275`) finds any
violation: for each index, the column checks, the column-duplicate checks
against later columns, the row checks, and the row-duplicate checks against
later rows.  The code stops at the first violation found; only whether some
violation exists determines the resulting `state` (the order only affects the
optional report printing, which is not modelled). -/
def anyViolationB (p : Problem) : Bool :=
  (List.range p.size).any (fun i =>
    lineViolationB p.size (colOf p.cells p.size i) ||
    (rangeFrom (i + 1) p.size).any (fun j =>
      dupViolationB p.size (colOf p.cells p.size i) (colOf p.cells p.size j)) ||
    lineViolationB p.size (rowOf p.cells p.size i) ||
    (rangeFrom (i + 1) p.size).any (fun j =>
      dupViolationB p.size (rowOf p.cells p.size i) (rowOf p.cells p.size j)))

/-- `evaluate_status` (`ohhi.py:185`): set `state` to `'infeasible'` on the
first violation found, to `'solved'` when there is no violation and every
cell is set, and leave it unchanged otherwise. -/
def evaluate_status (p : Problem) : Problem :=
  if anyViolationB p then { p with state := PState.infeasible }
  else if solvedB p then { p with state := PState.solved }
  else p

/-- `get_undecided_cell` (`ohhi.py:283`): the first unset cell in row-major
order, `none` (Python `None`) when every cell is set. -/
def get_undecided_cell (p : Problem) : Option (Nat × Nat) :=
  ((List.range p.size).flatMap (fun row =>
    (List.range p.size).map (fun col => (row, col)))).find?
      (fun rc => isDot (p.cells ((rc.1 : Int), (rc.2 : Int))))

/-- `choose` (`ohhi.py:295`): a shallow copy of the problem whose `cells` dict
is copied and whose `(row, col)` entry is set to `colour`. -/
def choose (p : Problem) (row col : Nat) (colour : Cell) : Problem :=
  { p with cells := upd p.cells ((row : Int), (col : Int)) colour }

/-- `constraint_propagation` (`ohhi.py:310`): cycles that run
`eliminate_contiguous` then `full_colour`, repeated while either reported a
change; `fuel` bounds the number of cycles. -/
def constraint_propagation : Nat → Problem → Except PyErr Problem
  | 0, _ => .error .fuelExhausted
  | fuel + 1, p =>
    match eliminate_contiguous p with
    | (cells1, ch1) =>
      let p1 := { p with cells := cells1 }
      match full_colour p1 with
      | .error e => .error e
      | .ok (cells2, ch2) =>
        let p2 := { p1 with cells := cells2 }
        if ch1 || ch2 then constraint_propagation fuel p2 else .ok p2

/-- The branching tail of `solve` (`ohhi.py:350`–`362`): pick the first
unset cell and recurse (`rec`) on the red then the blue branch,
short-circuiting on a solved red branch.  When `get_undecided_cell` falls
through to `None`, the unpacking `row, col = get_undecided_cell(problem)`
raises `TypeError`. -/
def solve_branch (rec : Problem → Except PyErr Problem) (p2 : Problem) :
    Except PyErr Problem :=
  match get_undecided_cell p2 with
  | none => .error .typeError
  | some (row, col) =>
    match rec (choose p2 row col Cell.r) with
    | .error e => .error e
    | .ok c1 =>
      if c1.state = PState.solved then .ok c1
      else
        match rec (choose p2 row col Cell.b) with
        | .error e => .error e
        | .ok c2 => .ok c2

/-- `solve` (`ohhi.py:324`): propagate, evaluate, return terminal problems
as-is, else run the branching tail on the first unset cell. -/
def solve : Nat → Nat → Problem → Except PyErr Problem
  | _, 0, _ => .error .fuelExhausted
  | pfuel, fuel + 1, p =>
    match constraint_propagation pfuel p with
    | .error e => .error e
    | .ok p1 =>
      let p2 := evaluate_status p1
      if p2.state = PState.solved ∨ p2.state = PState.infeasible then .ok p2
      else solve_branch (solve pfuel fuel) p2

/-! ## Vocabulary used by the verification -/

/-- The domain of admissible colours a cell value stands for: `'.'` is the
full domain, a colour is a singleton. -/
def dom : Cell → List Cell
  | Cell.dot => [Cell.r, Cell.b]
  | Cell.r => [Cell.r]
  | Cell.b => [Cell.b]

/-- The six masks `eliminate_contiguous` passes to
`eliminate_contiguous_line`, in pass order. -/
def sixMasks : List Mask :=
  [((1, 0), (2, 0)), ((-1, 0), (-2, 0)), ((1, 0), (-1, 0)),
   ((0, 1), (0, 2)), ((0, -1), (0, -2)), ((0, 1), (0, -1))]

/-- The opposite colour. -/
def opposite : Cell → Cell
  | Cell.r => Cell.b
  | Cell.b => Cell.r
  | Cell.dot => Cell.dot

/-- A grid-narrowing pass: it never rewrites a set cell, its flag is `true`
exactly when some cell changed, and any change starts from an unset cell. -/
def NarrowPass (f : Cells → Cells × Bool) : Prop :=
  (∀ cells y, cells y ≠ Cell.dot → (f cells).1 y = cells y) ∧
  (∀ cells, ((f cells).2 = true ↔ ∃ y, (f cells).1 y ≠ cells y)) ∧
  (∀ cells y, (f cells).1 y ≠ cells y → cells y = Cell.dot)

/-- Sequential composition of two passes over the shared `cells` dict, with
the change flags OR-ed — the shape of the pass sequence in
`eliminate_contiguous`. -/
def passComp (f g : Cells → Cells × Bool) : Cells → Cells × Bool :=
  fun cells =>
    let a := f cells
    let b := g a.1
    (b.1, a.2 || b.2)

/-- A pass decides cell `x` whenever the two `cells` entries `n1` and `n2`
hold one same colour. -/
def DecidesAt (f : Cells → Cells × Bool) (n1 n2 x : Ix) : Prop :=
  ∀ cells, cells n1 ≠ Cell.dot → cells n1 = cells n2 → (f cells).1 x ≠ Cell.dot

/-- One directional pass of `eliminate_contiguous`, as a function of the
cells. -/
def elimPass (size : Nat) (k : Nat) : Cells → Cells × Bool :=
  fun c =>
    match k with
    | 0 => eliminate_contiguous_line c (irange 0 (size - 2)) (irange 0 size) ((1, 0), (2, 0))
    | 1 => eliminate_contiguous_line c (irange 2 size) (irange 0 size) ((-1, 0), (-2, 0))
    | 2 => eliminate_contiguous_line c (irange 1 (size - 1)) (irange 0 size) ((1, 0), (-1, 0))
    | 3 => eliminate_contiguous_line c (irange 0 size) (irange 0 (size - 2)) ((0, 1), (0, 2))
    | 4 => eliminate_contiguous_line c (irange 0 size) (irange 2 size) ((0, -1), (0, -2))
    | _ => eliminate_contiguous_line c (irange 0 size) (irange 1 (size - 1)) ((0, 1), (0, -1))

/-- The pass sequence of `eliminate_contiguous` as a composition of its six
directional passes (used to reason about the passes one at a time). -/
def elimPasses (size : Nat) : Cells → Cells × Bool :=
  passComp (passComp (passComp (passComp (passComp
    (elimPass size 0) (elimPass size 1)) (elimPass size 2))
    (elimPass size 3)) (elimPass size 4)) (elimPass size 5)

/-- Claim C5 as stated: whenever an offset pair of the six masks names two
equal set neighbours of an unset cell, `eliminate_contiguous` sets that very
cell to the opposite colour; and the returned flag is `true` iff some cell
changed. -/
def eliminateClaimStated (p : Problem) : Prop :=
  (∀ (x : Ix) (m : Mask), m ∈ sixMasks → inGrid p.size x →
    inGrid p.size (addIx x m.1) → inGrid p.size (addIx x m.2) →
    p.cells x = Cell.dot →
    p.cells (addIx x m.1) ≠ Cell.dot →
    p.cells (addIx x m.1) = p.cells (addIx x m.2) →
    (eliminate_contiguous p).1 x = opposite (p.cells (addIx x m.1))) ∧
  ((eliminate_contiguous p).2 = true ↔ ∃ y, (eliminate_contiguous p).1 y ≠ p.cells y)

/-- At `x` the cells witness the window of mask `m`: both mask neighbours
hold one same set colour and `x` holds the opposite one. -/
def WindowSets (c : Cells) (x : Ix) (m : Mask) : Prop :=
  c (addIx x m.1) = c (addIx x m.2) ∧
  c (addIx x m.1) ≠ Cell.dot ∧
  c x = opposite (c (addIx x m.1))

/-- Every cell a pass changes ends holding the opposite colour of one of the
six windows, whose two neighbour cells hold one same set colour in the
pass's result. -/
def AttributedPass (f : Cells → Cells × Bool) : Prop :=
  ∀ cells x, (f cells).1 x ≠ cells x → ∃ m ∈ sixMasks, WindowSets (f cells).1 x m

/-- Equality of two problems as observed through the grid: same size, same
state, same cell values on every grid key. -/
def probEquiv (q1 q2 : Problem) : Prop :=
  q1.size = q2.size ∧ q1.state = q2.state ∧
  ∀ rc : Ix, inGrid q1.size rc → q1.cells rc = q2.cells rc

/-- Equality of two run outcomes: the same error, or grid-equal problems. -/
def resEquiv : Except PyErr Problem → Except PyErr Problem → Prop
  | .error e1, .error e2 => e1 = e2
  | .ok q1, .ok q2 => probEquiv q1 q2
  | _, _ => False

/-! ## Concrete instances used as inputs of witnesses and counterexamples -/

/-- An empty 2-by-2 puzzle. -/
def pAllDots2 : Problem :=
  { size := 2, cells := fun _ => Cell.dot, state := PState.unsolved }

/-- An empty 2-by-2 puzzle whose backing map differs from `pAllDots2` only
outside the grid (a distinct fresh copy with the same grid content). -/
def pAllDots2' : Problem :=
  { size := 2
    cells := fun rc => if rc = (5, 5) then Cell.r else Cell.dot
    state := PState.unsolved }

/-- A size-0 problem whose backing map is all-red. -/
def pRed0 : Problem :=
  { size := 0, cells := fun _ => Cell.r, state := PState.unsolved }

/-- The cells of a 4-by-4 puzzle on which two windows of
`eliminate_contiguous` conflict at cell `(0, 2)`: the column pair below it is
red (wanting blue) while the row pair behind it is blue (wanting red). -/
def pC5cells : Cells := fun rc =>
  if rc = (0, 0) then Cell.b
  else if rc = (0, 1) then Cell.b
  else if rc = (1, 2) then Cell.r
  else if rc = (2, 2) then Cell.r
  else Cell.dot

/-- The conflicting-windows puzzle. -/
def pC5 : Problem := { size := 4, cells := pC5cells, state := PState.unsolved }

/-- The cells of a 4-by-4 puzzle with a single applicable window: the pair
behind `(0, 2)` is red. -/
def pW5cells : Cells := fun rc =>
  if rc = (0, 0) then Cell.r else if rc = (0, 1) then Cell.r else Cell.dot

/-- The single-window puzzle. -/
def pW5 : Problem := { size := 4, cells := pW5cells, state := PState.unsolved }

/-- The cells of the fully and correctly solved 2-by-2 puzzle `rb / br`. -/
def pSolvedCells : Cells := fun rc =>
  if rc = (0, 0) then Cell.r
  else if rc = (0, 1) then Cell.b
  else if rc = (1, 0) then Cell.b
  else if rc = (1, 1) then Cell.r
  else Cell.dot

/-- The solved 2-by-2 puzzle. -/
def pSolved : Problem := { size := 2, cells := pSolvedCells, state := PState.unsolved }

/-- A 2-line puzzle file whose lines hold foreign characters (and trailing
newlines) beside exactly two alphabet characters each. -/
def exInput : List (List Char) := [['r', '#', 'b', '\n'], ['.', 'x', '.', '\n']]

/-- A puzzle file whose second line has one alphabet character while the file
has two lines. -/
def badInput : List (List Char) := [['r', 'b', '\n'], ['.', '\n']]

end Ohhi

namespace CP

/-! ## Concrete instances for the generic solver -/

/-- A propagator over an invocation-counting state: it increments the first
counter (its own invocation count) and reports a change exactly on its first
invocation. -/
def cA : Nat × Nat → (Nat × Nat) × Bool :=
  fun s => ((s.1 + 1, s.2), decide (s.1 = 0))

/-- A propagator that increments the second counter (its own invocation
count) and never reports a change. -/
def cB : Nat × Nat → (Nat × Nat) × Bool :=
  fun s => ((s.1, s.2 + 1), false)

/-- Python `len` on a string domain. -/
def lenL : List Char → Nat := List.length

/-- Python iteration on a string domain: iterating a string yields its
one-character substrings. -/
def iterL : List Char → List (List Char) := fun v => v.map (fun c => [c])

/-- A generic problem whose `variables` dict maps the key `None` to an empty
domain: `get_undecided_variable` falls through to `None`, which is itself a
present key. -/
def gpNone : GProblem (Option String) (List Char) :=
  { vars := [(Option.none, [])], state := PState.unsolved }

/-- A generic problem with one undecided string-domain variable. -/
def gpRB : GProblem Nat (List Char) :=
  { vars := [(0, ['r', 'b'])], state := PState.unsolved }

/-- A generic problem with one decided variable. -/
def gpR : GProblem Nat (List Char) :=
  { vars := [(0, ['r'])], state := PState.unsolved }

/-- A generic problem with two undecided variables. -/
def gpTwo : GProblem Nat (List Char) :=
  { vars := [(0, ['r', 'b']), (1, ['r', 'b'])], state := PState.unsolved }

/-- A state evaluation that marks a problem solved once every domain is a
singleton. -/
def evalSolveAll : GProblem Nat (List Char) → GProblem Nat (List Char) :=
  fun q =>
    if q.vars.all (fun kv => decide (kv.2.length = 1)) then
      { q with state := PState.solved }
    else q

/-- A state evaluation that marks a problem infeasible once some domain is a
singleton. -/
def evalInf : GProblem Nat (List Char) → GProblem Nat (List Char) :=
  fun q =>
    if q.vars.any (fun kv => decide (kv.2.length = 1)) then
      { q with state := PState.infeasible }
    else q

end CP

/-! # Theorems -/

namespace CP

/-- A `runAllConstraints` fold started with a raised flag keeps it raised. -/
theorem runAll_flag_mono {σ : Type} (cs : List (σ → σ × Bool)) :
    ∀ s : σ, (cs.foldl (fun st c => let r := c st.1; (r.1, st.2 || r.2)) (s, true)).2 = true := by
  induction cs with
  | nil => intro s; rfl
  | cons c cs ih =>
    intro s
    simp only [List.foldl_cons, Bool.true_or]
    exact ih (c s).1

/-- A cycle of the code's driver reports no change exactly when the
once-per-propagator cycle of the spec does, and then the two cycles agree on
the resulting state: a no-change cycle has invoked every propagator once,
each reporting no change. -/
theorem runConstraints_false_iff {σ : Type} (cs : List (σ → σ × Bool)) :
    ∀ s s' : σ, runConstraints cs s = (s', false) ↔ runAllConstraints cs s = (s', false) := by
  induction cs with
  | nil => intro s s'; rfl
  | cons c cs ih =>
    intro s s'
    rcases hc : c s with ⟨s1, ch⟩
    cases ch with
    | true =>
      constructor
      · intro h
        simp only [runConstraints, hc] at h
        exact absurd (congrArg Prod.snd h) (by simp)
      · intro h
        simp only [runAllConstraints, List.foldl_cons, hc] at h
        rw [show (s1, (false || true)) = (s1, true) by simp] at h
        have := runAll_flag_mono cs s1
        rw [congrArg Prod.snd h] at this
        exact absurd this (by simp)
    | false =>
      have hl : runConstraints (c :: cs) s = runConstraints cs s1 := by
        simp only [runConstraints, hc]
      have hr : runAllConstraints (c :: cs) s = runAllConstraints cs s1 := by
        simp only [runAllConstraints, List.foldl_cons, hc, Bool.false_or]
      rw [hl, hr]
      exact ih s1 s'

/-- When the driver returns, its final cycle was a full no-change cycle. -/
theorem propagate_constraints_final_cycle {σ : Type} :
    ∀ (fuel : Nat) (cs : List (σ → σ × Bool)) (s t : σ),
      propagate_constraints fuel cs s = some t →
      ∃ s_pre, runConstraints cs s_pre = (t, false) ∧ runAllConstraints cs s_pre = (t, false) := by
  intro fuel
  induction fuel with
  | zero => intro cs s t h; exact absurd h (by simp [propagate_constraints])
  | succ fuel ih =>
    intro cs s t h
    simp only [propagate_constraints] at h
    rcases hc : runConstraints cs s with ⟨s', ch⟩
    rw [hc] at h
    cases ch with
    | true => exact ih cs s' t h
    | false =>
      refine ⟨s, ?_, ?_⟩
      · rw [hc]; simpa using h
      · rw [← (runConstraints_false_iff cs s t).mp]
        rw [hc]; simpa using h

end CP

/-- C2 counterexample: the code's driver does not invoke every propagator
once per cycle.  With the invocation-counting propagators `cA`/`cB`, the
code's driver (`any(...)` short-circuits at the first change) invokes `cB`
only once although it runs two cycles, ending at counters `(2, 1)`, whereas
the once-per-propagator driver described by the claim ends at `(2, 2)`. -/
theorem propagate_constraints_short_circuits :
    CP.propagate_constraints 3 [CP.cA, CP.cB] (0, 0) = some (2, 1) ∧
    CP.propagate_constraints_once_per_cycle 3 [CP.cA, CP.cB] (0, 0) = some (2, 2) ∧
    CP.propagate_constraints 3 [CP.cA, CP.cB] (0, 0) ≠
      CP.propagate_constraints_once_per_cycle 3 [CP.cA, CP.cB] (0, 0) := by
  refine ⟨by decide, by decide, by decide⟩

/-- C2 amended: within a cycle the driver invokes the propagators in order
only up to the first that reports a change; it repeats cycles while the most
recent cycle reported a change, and it terminates exactly after a cycle in
which every propagator was invoked and none reported a change (such a cycle
coincides with the spec's invoke-every-propagator-once cycle). -/
theorem propagate_constraints_cycles {σ : Type} :
    (∀ (cs : List (σ → σ × Bool)) (s s' : σ),
      CP.runConstraints cs s = (s', false) ↔ CP.runAllConstraints cs s = (s', false)) ∧
    (∀ (fuel : Nat) (cs : List (σ → σ × Bool)) (s s' : σ),
      CP.runConstraints cs s = (s', true) →
      CP.propagate_constraints (fuel + 1) cs s = CP.propagate_constraints fuel cs s') ∧
    (∀ (fuel : Nat) (cs : List (σ → σ × Bool)) (s t : σ),
      CP.propagate_constraints fuel cs s = some t →
      ∃ s_pre, CP.runConstraints cs s_pre = (t, false) ∧
        CP.runAllConstraints cs s_pre = (t, false)) := by
  refine ⟨CP.runConstraints_false_iff, ?_, CP.propagate_constraints_final_cycle⟩
  intro fuel cs s s' h
  simp only [CP.propagate_constraints, h]

/-- Witness for `propagate_constraints_cycles` at concrete propagators. -/
theorem propagate_constraints_cycles_witness :
    (CP.runAllConstraints [CP.cB] ((0 : Nat), (0 : Nat)) = ((0, 1), false)) ∧
    (CP.propagate_constraints 2 [CP.cA] ((0 : Nat), (0 : Nat)) =
      CP.propagate_constraints 1 [CP.cA] (1, 0)) ∧
    (∃ s_pre, CP.runConstraints [CP.cB] s_pre = (((0 : Nat), (1 : Nat)), false) ∧
      CP.runAllConstraints [CP.cB] s_pre = ((0, 1), false)) :=
  ⟨(propagate_constraints_cycles.1 [CP.cB] (0, 0) (0, 1)).mp (by decide),
    propagate_constraints_cycles.2.1 1 [CP.cA] (0, 0) (1, 0) (by decide),
    propagate_constraints_cycles.2.2 1 [CP.cB] (0, 0) (0, 1) (by decide)⟩

/-- C3: when the pivot selected at the branching step has an empty domain the
candidate loop runs zero times and the trailing `return candidate_sol`
references a never-assigned local (`UnboundLocalError`).  The witness below
reaches this branch from an input problem that propagation and evaluation
leave unsolved. -/
theorem solve_empty_domain_unbound {K V : Type} [DecidableEq K]
    (noneK : K) (len : V → Nat) (iter : V → List V)
    (constraints : List (CP.GProblem K V → CP.GProblem K V × Bool))
    (evaluate_state : CP.GProblem K V → CP.GProblem K V)
    (pfuel fuel : Nat) (p p1 : CP.GProblem K V) (dom : V)
    (hprop : CP.propagate_constraints pfuel constraints p = some p1)
    (hstate : ¬((evaluate_state p1).state = PState.solved ∨
      (evaluate_state p1).state = PState.infeasible))
    (hdom : CP.dictGet (evaluate_state p1).vars
      (CP.get_undecided_variable noneK len (evaluate_state p1).vars) = some dom)
    (hempty : iter dom = []) :
    CP.solve noneK len iter constraints evaluate_state pfuel (fuel + 1) p =
      .error PyErr.unboundLocal := by
  simp only [CP.solve, hprop]
  rw [if_neg hstate]
  simp only [hdom, hempty]
  rfl

/-- Witness for `solve_empty_domain_unbound`: the `variables` dict of
`gpNone` maps the key `None` to an empty domain, no propagators are
installed and the state evaluation is the identity, so the solver selects
`None` as pivot, finds the empty domain there, and hits the unbound
`candidate_sol`. -/
theorem solve_empty_domain_unbound_witness :
    CP.solve (Option.none) CP.lenL CP.iterL [] id 1 2 CP.gpNone =
      .error PyErr.unboundLocal :=
  solve_empty_domain_unbound (Option.none) CP.lenL CP.iterL [] id 1 1
    CP.gpNone CP.gpNone [] rfl (by decide) (by decide) rfl

namespace CP

/-- Unfolding a dict read over a cons cell. -/
theorem dictGet_cons {K V : Type} [DecidableEq K] (a : K × V) (d : List (K × V))
    (k' : K) :
    dictGet (a :: d) k' = if a.1 = k' then some a.2 else dictGet d k' := by
  by_cases h : a.1 = k'
  · rw [dictGet, List.find?_cons_of_pos _ (by simp [h])]
    simp [h]
  · rw [dictGet, List.find?_cons_of_neg _ (by simp [h]), if_neg h]
    rfl

/-- Reading a dict after a write: the written key holds the new value and
every other key is unaffected. -/
theorem dictGet_dictSet {K V : Type} [DecidableEq K] (d : List (K × V))
    (k : K) (v : V) (k' : K) :
    dictGet (dictSet d k v) k' = if k' = k then some v else dictGet d k' := by
  have L1 : ∀ (d : List (K × V)), ¬(k' = k) →
      dictGet (d.map (fun kv => if kv.1 = k then (k, v) else kv)) k' = dictGet d k' := by
    intro d hk'
    induction d with
    | nil => rfl
    | cons a d ih =>
      by_cases ha : a.1 = k
      · rw [List.map_cons, if_pos ha, dictGet_cons, dictGet_cons]
        rw [if_neg (fun h => hk' h.symm), if_neg (fun h => hk' (ha ▸ h).symm)]
        exact ih
      · rw [List.map_cons, if_neg ha, dictGet_cons, dictGet_cons]
        by_cases h : a.1 = k'
        · rw [if_pos h, if_pos h]
        · rw [if_neg h, if_neg h]; exact ih
  have L2 : ∀ (d : List (K × V)), d.any (fun kv => decide (kv.1 = k)) = true →
      dictGet (d.map (fun kv => if kv.1 = k then (k, v) else kv)) k = some v := by
    intro d hany
    induction d with
    | nil => simp at hany
    | cons a d ih =>
      by_cases ha : a.1 = k
      · rw [List.map_cons, if_pos ha, dictGet_cons, if_pos rfl]
      · rw [List.map_cons, if_neg ha, dictGet_cons, if_neg ha]
        refine ih ?_
        simpa [List.any_cons, ha] using hany
  have L3 : ∀ (d : List (K × V)), ¬(k' = k) →
      dictGet (d ++ [(k, v)]) k' = dictGet d k' := by
    intro d hk'
    induction d with
    | nil =>
      rw [List.nil_append, dictGet_cons, if_neg (fun h => hk' h.symm)]
    | cons a d ih =>
      rw [List.cons_append, dictGet_cons, dictGet_cons]
      by_cases h : a.1 = k'
      · rw [if_pos h, if_pos h]
      · rw [if_neg h, if_neg h]; exact ih
  have L4 : ∀ (d : List (K × V)), d.any (fun kv => decide (kv.1 = k)) = false →
      dictGet (d ++ [(k, v)]) k = some v := by
    intro d hany
    induction d with
    | nil => rw [List.nil_append, dictGet_cons, if_pos rfl]
    | cons a d ih =>
      have h1 : decide (a.1 = k) = false ∧
          d.any (fun kv => decide (kv.1 = k)) = false := by
        have := hany
        rw [List.any_cons, Bool.or_eq_false_iff] at this
        exact this
      rw [List.cons_append, dictGet_cons,
        if_neg (by simpa using h1.1)]
      exact ih h1.2
  by_cases hany : (d.any (fun kv => decide (kv.1 = k))) = true
  · rw [dictSet, if_pos hany]
    by_cases hk' : k' = k
    · subst hk'; rw [if_pos rfl]; exact L2 d hany
    · rw [if_neg hk']; exact L1 d hk'
  · rw [dictSet, if_neg hany]
    by_cases hk' : k' = k
    · subst hk'
      rw [if_pos rfl]
      exact L4 d (Bool.eq_false_iff.mpr hany)
    · rw [if_neg hk']; exact L3 d hk'

end CP

/-- C8: branching builds a new problem equal to the old one except that the
copied `variables`/`cells` mapping holds the chosen value at exactly the
chosen key; every other entry and every other field is unchanged (the input
problem itself is a value of the embedding and is never mutated). -/
theorem branching_sets_exactly_one_entry :
    (∀ (K V : Type) (_inst : DecidableEq K) (p : CP.GProblem K V) (pivot : K) (v : V),
      CP.dictGet (CP.fix_variable p pivot v).vars pivot = some v ∧
      (∀ k : K, k ≠ pivot →
        CP.dictGet (CP.fix_variable p pivot v).vars k = CP.dictGet p.vars k) ∧
      (CP.fix_variable p pivot v).state = p.state) ∧
    (∀ (p : Ohhi.Problem) (row col : Nat) (colour : Ohhi.Cell),
      (Ohhi.choose p row col colour).cells ((row : Int), (col : Int)) = colour ∧
      (∀ rc : Ohhi.Ix, rc ≠ ((row : Int), (col : Int)) →
        (Ohhi.choose p row col colour).cells rc = p.cells rc) ∧
      (Ohhi.choose p row col colour).size = p.size ∧
      (Ohhi.choose p row col colour).state = p.state) := by
  constructor
  · intro K V _inst p pivot v
    refine ⟨?_, ?_, rfl⟩
    · simp [CP.fix_variable, CP.dictGet_dictSet]
    · intro k hk
      simp [CP.fix_variable, CP.dictGet_dictSet, hk]
  · intro p row col colour
    refine ⟨?_, ?_, rfl, rfl⟩
    · simp [Ohhi.choose, Ohhi.upd]
    · intro rc hrc
      simp [Ohhi.choose, Ohhi.upd, hrc]

/-- Witness for `branching_sets_exactly_one_entry` at concrete problems. -/
theorem branching_sets_exactly_one_entry_witness :
    (CP.dictGet (CP.fix_variable CP.gpTwo 0 ['r']).vars 0 = some ['r']) ∧
    (CP.dictGet (CP.fix_variable CP.gpTwo 0 ['r']).vars 1 = CP.dictGet CP.gpTwo.vars 1) ∧
    ((Ohhi.choose Ohhi.pC5 0 2 Ohhi.Cell.r).cells (0, 2) = Ohhi.Cell.r) ∧
    ((Ohhi.choose Ohhi.pC5 0 2 Ohhi.Cell.r).cells (1, 1) = Ohhi.pC5.cells (1, 1)) :=
  ⟨(branching_sets_exactly_one_entry.1 Nat (List Char) inferInstance CP.gpTwo 0 ['r']).1,
    (branching_sets_exactly_one_entry.1 Nat (List Char) inferInstance CP.gpTwo 0 ['r']).2.1
      1 (by decide),
    (branching_sets_exactly_one_entry.2 Ohhi.pC5 0 2 Ohhi.Cell.r).1,
    (branching_sets_exactly_one_entry.2 Ohhi.pC5 0 2 Ohhi.Cell.r).2.1 (1, 1) (by decide)⟩

namespace CP

/-- Unfolding the candidate loop when the recursion returns normally. -/
theorem solveLoop_cons_ok {K V : Type} (fix : V → GProblem K V)
    (rec : GProblem K V → Except PyErr (GProblem K V)) (v : V) (rest : List V)
    (last? : Option (GProblem K V)) (c : GProblem K V)
    (hr : rec (fix v) = .ok c) :
    solveLoop fix rec (v :: rest) last? =
      if c.state = PState.solved then .ok c else solveLoop fix rec rest (some c) := by
  rw [solveLoop, hr]

/-- Unfolding the candidate loop when the recursion raises. -/
theorem solveLoop_cons_err {K V : Type} (fix : V → GProblem K V)
    (rec : GProblem K V → Except PyErr (GProblem K V)) (v : V) (rest : List V)
    (last? : Option (GProblem K V)) (e : PyErr)
    (hr : rec (fix v) = .error e) :
    solveLoop fix rec (v :: rest) last? = .error e := by
  rw [solveLoop, hr]

/-- Where an `.ok` answer of the candidate loop can come from: a solved
recursive result, any recursive result of a scanned value, or the incoming
`candidate_sol`. -/
theorem solveLoop_ok_cases {K V : Type} (fix : V → GProblem K V)
    (rec : GProblem K V → Except PyErr (GProblem K V)) :
    ∀ (l : List V) (last? : Option (GProblem K V)) (q : GProblem K V),
      solveLoop fix rec l last? = .ok q →
      q.state = PState.solved ∨ (∃ v ∈ l, rec (fix v) = .ok q) ∨ last? = some q := by
  intro l
  induction l with
  | nil =>
    intro last? q h
    cases last? with
    | none => exact absurd h (by simp [solveLoop])
    | some c =>
      have : c = q := by simpa [solveLoop] using h
      exact Or.inr (Or.inr (by rw [this]))
  | cons v rest ih =>
    intro last? q h
    rcases hr : rec (fix v) with e | c
    · rw [solveLoop_cons_err fix rec v rest last? e hr] at h
      exact absurd h (by simp)
    · rw [solveLoop_cons_ok fix rec v rest last? c hr] at h
      by_cases hc : c.state = PState.solved
      · rw [if_pos hc] at h
        have : c = q := by simpa using h
        exact Or.inl (this ▸ hc)
      · rw [if_neg hc] at h
        rcases ih (some c) q h with h1 | ⟨u, hu, h2⟩ | h3
        · exact Or.inl h1
        · exact Or.inr (Or.inl ⟨u, List.mem_cons_of_mem v hu, h2⟩)
        · have : c = q := by simpa using h3
          exact Or.inr (Or.inl ⟨v, List.mem_cons_self v rest, by rw [hr, this]⟩)

/-- Unfolding one level of the generic solver past a successful
propagation. -/
theorem solve_unfold {K V : Type} [DecidableEq K] (noneK : K) (len : V → Nat)
    (iter : V → List V) (constraints : List (GProblem K V → GProblem K V × Bool))
    (evaluate_state : GProblem K V → GProblem K V) (pfuel fuel : Nat)
    (p p1 : GProblem K V)
    (hprop : propagate_constraints pfuel constraints p = some p1) :
    solve noneK len iter constraints evaluate_state pfuel (fuel + 1) p =
      (if (evaluate_state p1).state = PState.solved ∨
          (evaluate_state p1).state = PState.infeasible then .ok (evaluate_state p1)
       else
        match dictGet (evaluate_state p1).vars
            (get_undecided_variable noneK len (evaluate_state p1).vars) with
        | none => .error .keyError
        | some domain =>
          solveLoop
            (fun v => fix_variable (evaluate_state p1)
              (get_undecided_variable noneK len (evaluate_state p1).vars) v)
            (solve noneK len iter constraints evaluate_state pfuel fuel)
            (iter domain) none) := by
  rw [solve, hprop]

/-- Every normal return of the generic solver carries a terminal state. -/
theorem solve_ok_state {K V : Type} [DecidableEq K] (noneK : K) (len : V → Nat)
    (iter : V → List V) (constraints : List (GProblem K V → GProblem K V × Bool))
    (evaluate_state : GProblem K V → GProblem K V) (pfuel : Nat) :
    ∀ (fuel : Nat) (p q : GProblem K V),
      solve noneK len iter constraints evaluate_state pfuel fuel p = .ok q →
      q.state = PState.solved ∨ q.state = PState.infeasible := by
  intro fuel
  induction fuel with
  | zero => intro p q h; exact absurd h (by simp [solve])
  | succ fuel ih =>
    intro p q h
    rcases hp : propagate_constraints pfuel constraints p with - | p1
    · rw [solve, hp] at h
      exact absurd h (by simp)
    · rw [solve_unfold noneK len iter constraints evaluate_state pfuel fuel p p1 hp] at h
      by_cases hterm : (evaluate_state p1).state = PState.solved ∨
          (evaluate_state p1).state = PState.infeasible
      · rw [if_pos hterm] at h
        have : evaluate_state p1 = q := by simpa using h
        exact this ▸ hterm
      · rw [if_neg hterm] at h
        rcases hd : dictGet (evaluate_state p1).vars
            (get_undecided_variable noneK len (evaluate_state p1).vars) with - | dom
        · rw [hd] at h; exact absurd h (by simp)
        · rw [hd] at h
          rcases solveLoop_ok_cases _ _ _ _ _ h with h1 | ⟨u, -, h2⟩ | h3
          · exact Or.inl h1
          · exact ih _ q h2
          · exact absurd h3 (by simp)

/-- Skipping a non-solved candidate in the loop. -/
theorem solveLoop_skip {K V : Type} (fix : V → GProblem K V)
    (rec : GProblem K V → Except PyErr (GProblem K V)) (v : V) (rest : List V)
    (last? : Option (GProblem K V)) (c : GProblem K V)
    (hr : rec (fix v) = .ok c) (hns : c.state ≠ PState.solved) :
    solveLoop fix rec (v :: rest) last? = solveLoop fix rec rest (some c) := by
  rw [solveLoop_cons_ok fix rec v rest last? c hr, if_neg hns]

/-- Returning the first solved candidate in the loop. -/
theorem solveLoop_found {K V : Type} (fix : V → GProblem K V)
    (rec : GProblem K V → Except PyErr (GProblem K V)) (v : V) (rest : List V)
    (last? : Option (GProblem K V)) (c : GProblem K V)
    (hr : rec (fix v) = .ok c) (hs : c.state = PState.solved) :
    solveLoop fix rec (v :: rest) last? = .ok c := by
  rw [solveLoop_cons_ok fix rec v rest last? c hr, if_pos hs]

/-- A loop all of whose candidate recursions return non-solved results ends
with the last candidate's result. -/
theorem solveLoop_exhausts {K V : Type} (fix : V → GProblem K V)
    (rec : GProblem K V → Except PyErr (GProblem K V)) (vlast : V) :
    ∀ (vs : List V) (last? : Option (GProblem K V)),
      (∀ u ∈ vs ++ [vlast], ∃ cu, rec (fix u) = .ok cu ∧ cu.state ≠ PState.solved) →
      solveLoop fix rec (vs ++ [vlast]) last? = rec (fix vlast) := by
  intro vs
  induction vs with
  | nil =>
    intro last? hall
    rcases hall vlast (by simp) with ⟨c, hc, hns⟩
    rw [List.nil_append, solveLoop_skip fix rec vlast [] last? c hc hns]
    simp [solveLoop, hc]
  | cons u vs ih =>
    intro last? hall
    rcases hall u (by simp) with ⟨c, hc, hns⟩
    rw [List.cons_append, solveLoop_skip fix rec u _ last? c hc hns]
    exact ih (some c) (fun w hw => hall w (List.mem_cons_of_mem u hw))

/-- A loop returns the first solved candidate, whatever follows it. -/
theorem solveLoop_first_solved {K V : Type} (fix : V → GProblem K V)
    (rec : GProblem K V → Except PyErr (GProblem K V)) (v : V) (vs2 : List V)
    (c : GProblem K V) (hv : rec (fix v) = .ok c) (hs : c.state = PState.solved) :
    ∀ (vs1 : List V) (last? : Option (GProblem K V)),
      (∀ u ∈ vs1, ∃ cu, rec (fix u) = .ok cu ∧ cu.state ≠ PState.solved) →
      solveLoop fix rec (vs1 ++ v :: vs2) last? = .ok c := by
  intro vs1
  induction vs1 with
  | nil =>
    intro last? _
    rw [List.nil_append]
    exact solveLoop_found fix rec v vs2 last? c hv hs
  | cons u vs1 ih =>
    intro last? hall
    rcases hall u (by simp) with ⟨cu, hcu, hns⟩
    rw [List.cons_append, solveLoop_skip fix rec u _ last? cu hcu hns]
    exact ih (some cu) (fun w hw => hall w (List.mem_cons_of_mem u hw))

end CP

namespace CP

/-- Unfolding the generic solver into its candidate loop on the non-terminal
path. -/
theorem solve_unfold_branch {K V : Type} [DecidableEq K] (noneK : K)
    (len : V → Nat) (iter : V → List V)
    (constraints : List (GProblem K V → GProblem K V × Bool))
    (evaluate_state : GProblem K V → GProblem K V) (pfuel fuel : Nat)
    (p p1 : GProblem K V) (dom : V)
    (hprop : propagate_constraints pfuel constraints p = some p1)
    (hns : ¬((evaluate_state p1).state = PState.solved ∨
      (evaluate_state p1).state = PState.infeasible))
    (hdom : dictGet (evaluate_state p1).vars
      (get_undecided_variable noneK len (evaluate_state p1).vars) = some dom) :
    solve noneK len iter constraints evaluate_state pfuel (fuel + 1) p =
      solveLoop
        (fun v => fix_variable (evaluate_state p1)
          (get_undecided_variable noneK len (evaluate_state p1).vars) v)
        (solve noneK len iter constraints evaluate_state pfuel fuel)
        (iter dom) none := by
  rw [solve_unfold noneK len iter constraints evaluate_state pfuel fuel p p1 hprop,
    if_neg hns, hdom]

end CP

/-- C7: the generic search returns a terminal problem as-is after propagation
and evaluation; otherwise it branches, returning the first candidate whose
recursive result is solved without the later candidates influencing the
answer, and when every candidate's recursion returns a non-solved result it
returns the last candidate's result, whose state is necessarily infeasible. -/
theorem solve_search_order {K V : Type} [DecidableEq K] (noneK : K)
    (len : V → Nat) (iter : V → List V)
    (constraints : List (CP.GProblem K V → CP.GProblem K V × Bool))
    (evaluate_state : CP.GProblem K V → CP.GProblem K V)
    (pfuel fuel : Nat) (p p1 : CP.GProblem K V)
    (hprop : CP.propagate_constraints pfuel constraints p = some p1) :
    ((evaluate_state p1).state = PState.solved ∨
        (evaluate_state p1).state = PState.infeasible →
      CP.solve noneK len iter constraints evaluate_state pfuel (fuel + 1) p =
        .ok (evaluate_state p1)) ∧
    (∀ (dom : V) (vs1 : List V) (v : V) (vs2 : List V) (c : CP.GProblem K V),
      ¬((evaluate_state p1).state = PState.solved ∨
        (evaluate_state p1).state = PState.infeasible) →
      CP.dictGet (evaluate_state p1).vars
        (CP.get_undecided_variable noneK len (evaluate_state p1).vars) = some dom →
      iter dom = vs1 ++ v :: vs2 →
      (∀ u ∈ vs1, ∃ cu,
        CP.solve noneK len iter constraints evaluate_state pfuel fuel
          (CP.fix_variable (evaluate_state p1)
            (CP.get_undecided_variable noneK len (evaluate_state p1).vars) u) =
          .ok cu ∧ cu.state ≠ PState.solved) →
      CP.solve noneK len iter constraints evaluate_state pfuel fuel
        (CP.fix_variable (evaluate_state p1)
          (CP.get_undecided_variable noneK len (evaluate_state p1).vars) v) = .ok c →
      c.state = PState.solved →
      CP.solve noneK len iter constraints evaluate_state pfuel (fuel + 1) p = .ok c) ∧
    (∀ (dom : V) (vs : List V) (vlast : V),
      ¬((evaluate_state p1).state = PState.solved ∨
        (evaluate_state p1).state = PState.infeasible) →
      CP.dictGet (evaluate_state p1).vars
        (CP.get_undecided_variable noneK len (evaluate_state p1).vars) = some dom →
      iter dom = vs ++ [vlast] →
      (∀ u ∈ vs ++ [vlast], ∃ cu,
        CP.solve noneK len iter constraints evaluate_state pfuel fuel
          (CP.fix_variable (evaluate_state p1)
            (CP.get_undecided_variable noneK len (evaluate_state p1).vars) u) =
          .ok cu ∧ cu.state ≠ PState.solved) →
      (CP.solve noneK len iter constraints evaluate_state pfuel (fuel + 1) p =
        CP.solve noneK len iter constraints evaluate_state pfuel fuel
          (CP.fix_variable (evaluate_state p1)
            (CP.get_undecided_variable noneK len (evaluate_state p1).vars) vlast)) ∧
      (∀ q, CP.solve noneK len iter constraints evaluate_state pfuel fuel
          (CP.fix_variable (evaluate_state p1)
            (CP.get_undecided_variable noneK len (evaluate_state p1).vars) vlast) =
          .ok q → q.state = PState.infeasible)) := by
  refine ⟨?_, ?_, ?_⟩
  · intro hterm
    rw [CP.solve_unfold noneK len iter constraints evaluate_state pfuel fuel p p1 hprop,
      if_pos hterm]
  · intro dom vs1 v vs2 c hns hdom hiter hvs1 hv hs
    rw [CP.solve_unfold_branch noneK len iter constraints evaluate_state pfuel fuel
      p p1 dom hprop hns hdom, hiter]
    exact CP.solveLoop_first_solved _ _ v vs2 c hv hs vs1 none hvs1
  · intro dom vs vlast hns hdom hiter hall
    constructor
    · rw [CP.solve_unfold_branch noneK len iter constraints evaluate_state pfuel fuel
        p p1 dom hprop hns hdom, hiter]
      exact CP.solveLoop_exhausts _ _ vlast vs none hall
    · intro q hq
      rcases hall vlast (by simp) with ⟨cu, hcu, hnsu⟩
      have hqc : q = cu := Except.ok.inj ((hq ▸ hcu : (Except.ok q : Except PyErr _) = .ok cu))
      rcases CP.solve_ok_state noneK len iter constraints evaluate_state pfuel fuel _ q hq with
        hsq | hiq
      · exact absurd (hqc ▸ hsq) hnsu
      · exact hiq

/-- Witness for `solve_search_order`: a terminal return, a first-candidate
short-circuit, and an exhausted loop ending infeasible, on concrete one-cell
problems. -/
theorem solve_search_order_witness :
    (CP.solve 0 CP.lenL CP.iterL [] CP.evalSolveAll 1 1 CP.gpR =
      .ok ⟨[(0, ['r'])], PState.solved⟩) ∧
    (CP.solve 0 CP.lenL CP.iterL [] CP.evalSolveAll 1 2 CP.gpRB =
      .ok ⟨[(0, ['r'])], PState.solved⟩) ∧
    (CP.solve 0 CP.lenL CP.iterL [] CP.evalInf 1 2 CP.gpRB =
      CP.solve 0 CP.lenL CP.iterL [] CP.evalInf 1 1 (CP.fix_variable CP.gpRB 0 ['b'])) ∧
    (∀ q, CP.solve 0 CP.lenL CP.iterL [] CP.evalInf 1 1
      (CP.fix_variable CP.gpRB 0 ['b']) = .ok q → q.state = PState.infeasible) := by
  have h1 := (solve_search_order 0 CP.lenL CP.iterL [] CP.evalSolveAll 1 0
    CP.gpR CP.gpR rfl).1 (by decide)
  have h2 := (solve_search_order 0 CP.lenL CP.iterL [] CP.evalSolveAll 1 1
    CP.gpRB CP.gpRB rfl).2.1 ['r', 'b'] [] ['r'] [['b']]
    ⟨[(0, ['r'])], PState.solved⟩ (by decide) (by decide) rfl
    (by intro u hu; exact absurd hu (List.not_mem_nil u)) (by rfl) (by decide)
  have h3 := (solve_search_order 0 CP.lenL CP.iterL [] CP.evalInf 1 1
    CP.gpRB CP.gpRB rfl).2.2 ['r', 'b'] [['r']] ['b'] (by decide) (by decide) rfl
    (by
      intro u hu
      fin_cases hu
      · exact ⟨⟨[(0, ['r'])], PState.infeasible⟩, by rfl, by decide⟩
      · exact ⟨⟨[(0, ['b'])], PState.infeasible⟩, by rfl, by decide⟩)
  exact ⟨h1, h2, h3.1, h3.2⟩

namespace Ohhi

/-- `inRB` is false exactly on the unset cell. -/
theorem inRB_eq_false {c : Cell} : inRB c = false ↔ c = Cell.dot := by
  cases c <;> simp [inRB]

/-- The dict update reads back the written value at the written key. -/
theorem upd_self (f : Cells) (k : Ix) (v : Cell) : upd f k v k = v := by
  simp [upd]

/-- The dict update leaves the other keys alone. -/
theorem upd_ne (f : Cells) (k : Ix) (v : Cell) (y : Ix) (h : y ≠ k) :
    upd f k v y = f y := by
  simp [upd, h]

/-- One scan step either leaves the state alone or sets the unset scanned
cell, raising the flag and touching nothing else. -/
theorem ecl_step_cases (mask : Mask) (st : Cells × Bool) (x : Ix) :
    ecl_step mask st x = st ∨
    (st.1 x = Cell.dot ∧ (ecl_step mask st x).1 x ≠ Cell.dot ∧
      (ecl_step mask st x).2 = true ∧
      ∀ y, y ≠ x → (ecl_step mask st x).1 y = st.1 y) := by
  by_cases h : inRB (st.1 x) = true
  · left
    simp [ecl_step, h]
  · have h' : inRB (st.1 x) = false := Bool.eq_false_iff.mpr h
    have hdot : st.1 x = Cell.dot := inRB_eq_false.mp h'
    by_cases h1 : st.1 (addIx x mask.1) = Cell.r ∧ st.1 (addIx x mask.2) = Cell.r
    · right
      refine ⟨hdot, ?_, ?_, ?_⟩
      · simp [ecl_step, h', h1, upd_self]
      · simp [ecl_step, h', h1]
      · intro y hy
        simp [ecl_step, h', h1, upd_ne _ _ _ _ hy]
    · by_cases h2 : st.1 (addIx x mask.1) = Cell.b ∧ st.1 (addIx x mask.2) = Cell.b
      · right
        refine ⟨hdot, ?_, ?_, ?_⟩
        · simp [ecl_step, h', h1, h2, upd_self]
        · simp [ecl_step, h', h1, h2]
        · intro y hy
          simp [ecl_step, h', h1, h2, upd_ne _ _ _ _ hy]
      · left
        simp [ecl_step, h', h1, h2]

/-- One scan step never rewrites a set cell. -/
theorem ecl_step_frozen (mask : Mask) (st : Cells × Bool) (x y : Ix)
    (h : st.1 y ≠ Cell.dot) : (ecl_step mask st x).1 y = st.1 y := by
  rcases ecl_step_cases mask st x with heq | ⟨hdot, -, -, hoth⟩
  · rw [heq]
  · exact hoth y (fun hyx => h (hyx ▸ hdot))

/-- A scan never rewrites a set cell. -/
theorem ecl_fold_frozen (mask : Mask) (l : List Ix) :
    ∀ (st : Cells × Bool) (y : Ix), st.1 y ≠ Cell.dot →
      (l.foldl (ecl_step mask) st).1 y = st.1 y := by
  induction l with
  | nil => intro st y _; rfl
  | cons x l ih =>
    intro st y h
    rw [List.foldl_cons]
    have hx := ecl_step_frozen mask st x y h
    rw [ih (ecl_step mask st x) y (by rw [hx]; exact h)]
    exact hx

/-- A cell a scan has changed was unset before the scan. -/
theorem ecl_fold_dot (mask : Mask) (l : List Ix) (st : Cells × Bool) (y : Ix)
    (h : (l.foldl (ecl_step mask) st).1 y ≠ st.1 y) : st.1 y = Cell.dot := by
  by_contra hne
  exact h (ecl_fold_frozen mask l st y hne)

/-- The flag after a scan is raised exactly when it came in raised or some
cell changed during the scan. -/
theorem ecl_fold_flag (mask : Mask) (l : List Ix) :
    ∀ st : Cells × Bool, ((l.foldl (ecl_step mask) st).2 = true ↔
      st.2 = true ∨ ∃ y, (l.foldl (ecl_step mask) st).1 y ≠ st.1 y) := by
  induction l with
  | nil => intro st; simp
  | cons x l ih =>
    intro st
    rw [List.foldl_cons]
    rcases ecl_step_cases mask st x with heq | ⟨hdot, hne, hflag, -⟩
    · rw [heq]
      exact ih st
    · have hfin_x : (l.foldl (ecl_step mask) (ecl_step mask st x)).1 x =
          (ecl_step mask st x).1 x :=
        ecl_fold_frozen mask l _ x hne
    -- the final value at `x` differs from the initial unset one
      have hfin_ne : (l.foldl (ecl_step mask) (ecl_step mask st x)).1 x ≠ st.1 x := by
        rw [hfin_x, hdot]
        exact hne
      exact iff_of_true ((ih _).mpr (Or.inl hflag)) (Or.inr ⟨x, hfin_ne⟩)

/-- `eliminate_contiguous_line` never rewrites a set cell. -/
theorem line_frozen (cells : Cells) (rows cols : List Int) (mask : Mask)
    (y : Ix) (h : cells y ≠ Cell.dot) :
    (eliminate_contiguous_line cells rows cols mask).1 y = cells y :=
  ecl_fold_frozen mask (scanList rows cols) (cells, false) y h

/-- A cell changed by `eliminate_contiguous_line` was unset. -/
theorem line_dot (cells : Cells) (rows cols : List Int) (mask : Mask) (y : Ix)
    (h : (eliminate_contiguous_line cells rows cols mask).1 y ≠ cells y) :
    cells y = Cell.dot :=
  ecl_fold_dot mask (scanList rows cols) (cells, false) y h

/-- `eliminate_contiguous_line` reports a change exactly when a cell
changed. -/
theorem line_flag (cells : Cells) (rows cols : List Int) (mask : Mask) :
    ((eliminate_contiguous_line cells rows cols mask).2 = true ↔
      ∃ y, (eliminate_contiguous_line cells rows cols mask).1 y ≠ cells y) := by
  have h := ecl_fold_flag mask (scanList rows cols) ((cells, false) : Cells × Bool)
  simpa [eliminate_contiguous_line] using h

/-- Each directional pass is a narrowing pass. -/
theorem narrowPass_elimPass (size k : Nat) : NarrowPass (elimPass size k) := by
  refine ⟨?_, ?_, ?_⟩ <;> intro cells
  · intro y h
    cases k with
    | zero => exact line_frozen cells _ _ _ y h
    | succ k => cases k with
      | zero => exact line_frozen cells _ _ _ y h
      | succ k => cases k with
        | zero => exact line_frozen cells _ _ _ y h
        | succ k => cases k with
          | zero => exact line_frozen cells _ _ _ y h
          | succ k => cases k with
            | zero => exact line_frozen cells _ _ _ y h
            | succ k => exact line_frozen cells _ _ _ y h
  · cases k with
    | zero => exact line_flag cells _ _ _
    | succ k => cases k with
      | zero => exact line_flag cells _ _ _
      | succ k => cases k with
        | zero => exact line_flag cells _ _ _
        | succ k => cases k with
          | zero => exact line_flag cells _ _ _
          | succ k => cases k with
            | zero => exact line_flag cells _ _ _
            | succ k => exact line_flag cells _ _ _
  · intro y h
    cases k with
    | zero => exact line_dot cells _ _ _ y h
    | succ k => cases k with
      | zero => exact line_dot cells _ _ _ y h
      | succ k => cases k with
        | zero => exact line_dot cells _ _ _ y h
        | succ k => cases k with
          | zero => exact line_dot cells _ _ _ y h
          | succ k => cases k with
            | zero => exact line_dot cells _ _ _ y h
            | succ k => exact line_dot cells _ _ _ y h

/-- Narrowing passes compose. -/
theorem narrowPass_comp {f g : Cells → Cells × Bool}
    (hf : NarrowPass f) (hg : NarrowPass g) : NarrowPass (passComp f g) := by
  obtain ⟨hf1, hf2, hf3⟩ := hf
  obtain ⟨hg1, hg2, hg3⟩ := hg
  refine ⟨?_, ?_, ?_⟩
  · intro cells y h
    show (g (f cells).1).1 y = cells y
    have ha : (f cells).1 y = cells y := hf1 cells y h
    rw [hg1 (f cells).1 y (by rw [ha]; exact h), ha]
  · intro cells
    show ((f cells).2 || (g (f cells).1).2) = true ↔
      ∃ y, (g (f cells).1).1 y ≠ cells y
    rw [Bool.or_eq_true, hf2 cells, hg2 (f cells).1]
    constructor
    · rintro (⟨y, hy⟩ | ⟨y, hy⟩)
      · have hdot : cells y = Cell.dot := hf3 cells y hy
        have hnd : (f cells).1 y ≠ Cell.dot := by rw [← hdot]; exact hy
        exact ⟨y, by rw [hg1 (f cells).1 y hnd]; exact hy⟩
      · have hdot : (f cells).1 y = Cell.dot := hg3 (f cells).1 y hy
        by_cases hc : cells y = Cell.dot
        · exact ⟨y, by rw [hdot] at hy; rw [← hc] at hy; exact hy⟩
        · exact absurd (hf1 cells y hc ▸ hdot) hc
    · rintro ⟨y, hy⟩
      by_cases ha : (f cells).1 y = cells y
      · exact Or.inr ⟨y, by rw [ha]; exact hy⟩
      · exact Or.inl ⟨y, ha⟩
  · intro cells y h
    have h' : (g (f cells).1).1 y ≠ cells y := h
    by_cases ha : (f cells).1 y = cells y
    · rw [← ha]
      exact hg3 (f cells).1 y (by rw [ha]; exact h')
    · exact hf3 cells y ha

/-- `eliminate_contiguous` is the composition of its six passes. -/
theorem eliminate_contiguous_eq (p : Problem) :
    eliminate_contiguous p = elimPasses p.size p.cells := rfl

/-- The pass sequence of `eliminate_contiguous` is a narrowing pass. -/
theorem narrowPass_elimPasses (size : Nat) : NarrowPass (elimPasses size) :=
  narrowPass_comp (narrowPass_comp (narrowPass_comp (narrowPass_comp
    (narrowPass_comp (narrowPass_elimPass size 0) (narrowPass_elimPass size 1))
    (narrowPass_elimPass size 2)) (narrowPass_elimPass size 3))
    (narrowPass_elimPass size 4)) (narrowPass_elimPass size 5)

/-- `eliminate_contiguous` never rewrites a set cell. -/
theorem eliminate_contiguous_frozen (p : Problem) (y : Ix)
    (h : p.cells y ≠ Cell.dot) : (eliminate_contiguous p).1 y = p.cells y := by
  rw [eliminate_contiguous_eq]
  exact (narrowPass_elimPasses p.size).1 p.cells y h

/-- A cell changed by `eliminate_contiguous` was unset. -/
theorem eliminate_contiguous_dot (p : Problem) (y : Ix)
    (h : (eliminate_contiguous p).1 y ≠ p.cells y) : p.cells y = Cell.dot := by
  rw [eliminate_contiguous_eq] at h
  exact (narrowPass_elimPasses p.size).2.2 p.cells y h

/-- `eliminate_contiguous` reports a change exactly when a cell changed. -/
theorem eliminate_contiguous_flag (p : Problem) :
    ((eliminate_contiguous p).2 = true ↔
      ∃ y, (eliminate_contiguous p).1 y ≠ p.cells y) := by
  rw [eliminate_contiguous_eq]
  exact (narrowPass_elimPasses p.size).2.1 p.cells

end Ohhi

namespace Ohhi

/-- Each row iteration of `full_colour` dies on its first `len(generator)`
call. -/
theorem full_colour_row_err (size : Nat) (st : Cells × Bool) (row : Nat) :
    full_colour_row size st row = .error PyErr.typeError := rfl

/-- `full_colour` in closed form: a no-op on an empty grid, a `TypeError` on
the first row of any non-empty grid — before any cell has been written. -/
theorem full_colour_eq (p : Problem) :
    full_colour p =
      if p.size = 0 then .ok (p.cells, false) else .error PyErr.typeError := by
  by_cases h : p.size = 0
  · rw [if_pos h, full_colour, h]
    simp only [List.range_zero, List.foldlM_nil, pure_bind]
    rfl
  · rw [if_neg h]
    rcases Nat.exists_eq_succ_of_ne_zero h with ⟨n, hn⟩
    have hrows : (List.range p.size).foldlM (full_colour_row p.size)
        ((p.cells, false) : Cells × Bool) = .error PyErr.typeError := by
      rw [hn, List.range_succ_eq_map, List.foldlM_cons, full_colour_row_err]
      rfl
    rw [full_colour, hrows]
    rfl

end Ohhi

/-- C1 (code defect): `full_colour` cannot count anything — it applies
Python's `len` to a generator expression (`ohhi.py:152`–`153`), which raises
`TypeError` on the first row of any non-empty grid, here the empty 2-by-2
puzzle; the claimed counting-and-filling behaviour never runs. -/
theorem full_colour_raises_type_error :
    Ohhi.full_colour Ohhi.pAllDots2 = .error PyErr.typeError := by
  rw [Ohhi.full_colour_eq]
  rfl

namespace Ohhi

/-- Every cell's domain is inside the full two-colour domain. -/
theorem dom_subset_full (c : Cell) : dom c ⊆ dom Cell.dot := by
  cases c <;> intro x hx <;> simp [dom] at hx ⊢ <;> simp [hx]

end Ohhi

/-- C6: both propagators only narrow.  For `eliminate_contiguous`, every
cell's post-call domain is contained in its pre-call domain and set
(singleton) cells are never rewritten; `full_colour` satisfies the same on
every normal return (its only normal return, on an empty grid, leaves the
cells untouched; on the `TypeError` paths no cell has been written when the
exception leaves the function). -/
theorem propagators_only_narrow (p : Ohhi.Problem) (y : Ohhi.Ix) :
    (Ohhi.dom ((Ohhi.eliminate_contiguous p).1 y) ⊆ Ohhi.dom (p.cells y)) ∧
    (p.cells y ≠ Ohhi.Cell.dot → (Ohhi.eliminate_contiguous p).1 y = p.cells y) ∧
    (∀ (cells' : Ohhi.Cells) (ch : Bool), Ohhi.full_colour p = .ok (cells', ch) →
      Ohhi.dom (cells' y) ⊆ Ohhi.dom (p.cells y) ∧
      (p.cells y ≠ Ohhi.Cell.dot → cells' y = p.cells y)) := by
  have hcells : ∀ (cells' : Ohhi.Cells) (ch : Bool),
      Ohhi.full_colour p = .ok (cells', ch) → cells' = p.cells := by
    intro cells' ch h
    rw [Ohhi.full_colour_eq] at h
    by_cases hz : p.size = 0
    · rw [if_pos hz] at h
      exact congrArg Prod.fst (Except.ok.inj h).symm
    · rw [if_neg hz] at h
      exact absurd h (by simp)
  refine ⟨?_, ?_, ?_⟩
  · by_cases hd : p.cells y = Ohhi.Cell.dot
    · rw [hd]
      exact Ohhi.dom_subset_full _
    · rw [Ohhi.eliminate_contiguous_frozen p y hd]
      exact fun x hx => hx
  · exact Ohhi.eliminate_contiguous_frozen p y
  · intro cells' ch h
    rw [hcells cells' ch h]
    exact ⟨fun x hx => hx, fun _ => rfl⟩

/-- Witness for `propagators_only_narrow`: a set cell of the conflict puzzle
is untouched by `eliminate_contiguous`, and `full_colour` on the size-0
problem returns its cells unchanged. -/
theorem propagators_only_narrow_witness :
    ((Ohhi.eliminate_contiguous Ohhi.pC5).1 (0, 0) = Ohhi.pC5.cells (0, 0)) ∧
    (Ohhi.dom (Ohhi.pRed0.cells (1, 1)) ⊆ Ohhi.dom (Ohhi.pRed0.cells (1, 1)) ∧
      (Ohhi.pRed0.cells (1, 1) ≠ Ohhi.Cell.dot →
        Ohhi.pRed0.cells (1, 1) = Ohhi.pRed0.cells (1, 1))) :=
  ⟨(propagators_only_narrow Ohhi.pC5 (0, 0)).2.1 (by decide),
    (propagators_only_narrow Ohhi.pRed0 (1, 1)).2.2 Ohhi.pRed0.cells false
      (by rw [Ohhi.full_colour_eq]; rfl)⟩

namespace Ohhi

/-- Membership in the integer `range(a, b)`. -/
theorem mem_irange {a b : Nat} {t : Int} :
    t ∈ irange a b ↔ (a : Int) ≤ t ∧ t < (b : Int) := by
  simp only [irange, List.mem_map, List.mem_range]
  constructor
  · rintro ⟨i, hi, rfl⟩
    constructor
    · exact_mod_cast Nat.le_add_right a i
    · have : a + i < b := by omega
      exact_mod_cast this
  · rintro ⟨h1, h2⟩
    refine ⟨(t - a).toNat, by omega, by omega⟩

/-- Membership in the scan order of `eliminate_contiguous_line`. -/
theorem mem_scanList {rows cols : List Int} {x : Ix} :
    x ∈ scanList rows cols ↔ x.1 ∈ rows ∧ x.2 ∈ cols := by
  rcases x with ⟨r, c⟩
  simp only [scanList, List.mem_flatMap, List.mem_map]
  constructor
  · rintro ⟨r', hr', c', hc', heq⟩
    cases heq
    exact ⟨hr', hc'⟩
  · rintro ⟨hr, hc⟩
    exact ⟨r, hr, c, hc, rfl⟩

/-- A scan decides every scanned cell whose two mask neighbours hold one same
colour when the scan starts. -/
theorem ecl_fold_decides (mask : Mask) (l : List Ix) :
    ∀ (st : Cells × Bool) (x : Ix), x ∈ l →
      st.1 (addIx x mask.1) ≠ Cell.dot →
      st.1 (addIx x mask.1) = st.1 (addIx x mask.2) →
      (l.foldl (ecl_step mask) st).1 x ≠ Cell.dot := by
  induction l with
  | nil => intro st x hx _ _; exact absurd hx (List.not_mem_nil x)
  | cons yx l ih =>
    intro st x hx h1 h2
    rw [List.foldl_cons]
    rcases List.mem_cons.mp hx with rfl | hxl
    · by_cases hd : st.1 x = Cell.dot
      · have h' : inRB (st.1 x) = false := inRB_eq_false.mpr hd
        have hstep : (ecl_step mask st x).1 x ≠ Cell.dot := by
          rcases hc : st.1 (addIx x mask.1) with - | - | -
          · have hcc2 : st.1 (addIx x mask.2) = Cell.r := by rw [← h2]; exact hc
            simp [ecl_step, h', hc, hcc2, upd_self]
          · have hcc2 : st.1 (addIx x mask.2) = Cell.b := by rw [← h2]; exact hc
            simp [ecl_step, h', hc, hcc2, upd_self]
          · exact absurd hc h1
        rw [ecl_fold_frozen mask l _ x hstep]
        exact hstep
      · have hstep : (ecl_step mask st x).1 x = st.1 x := ecl_step_frozen mask st x x hd
        rw [ecl_fold_frozen mask l _ x (by rw [hstep]; exact hd), hstep]
        exact hd
    · have k1 : (ecl_step mask st yx).1 (addIx x mask.1) = st.1 (addIx x mask.1) :=
        ecl_step_frozen mask st yx _ h1
      have k2 : (ecl_step mask st yx).1 (addIx x mask.2) = st.1 (addIx x mask.2) :=
        ecl_step_frozen mask st yx _ (by rw [← h2]; exact h1)
      exact ih (ecl_step mask st yx) x hxl (by rw [k1]; exact h1)
        (by rw [k1, k2]; exact h2)

/-- `eliminate_contiguous_line` decides every scanned cell whose two mask
neighbours hold one same colour. -/
theorem line_decides (cells : Cells) (rows cols : List Int) (mask : Mask)
    (x : Ix) (hmem : x ∈ scanList rows cols)
    (h1 : cells (addIx x mask.1) ≠ Cell.dot)
    (h2 : cells (addIx x mask.1) = cells (addIx x mask.2)) :
    (eliminate_contiguous_line cells rows cols mask).1 x ≠ Cell.dot :=
  ecl_fold_decides mask (scanList rows cols) (cells, false) x hmem h1 h2

/-- A deciding pass stays deciding when a narrowing pass runs after it. -/
theorem decidesAt_comp_left {f g : Cells → Cells × Bool} {n1 n2 x : Ix}
    (hf : DecidesAt f n1 n2 x) (hg : NarrowPass g) :
    DecidesAt (passComp f g) n1 n2 x := by
  intro cells h1 h2
  show (g (f cells).1).1 x ≠ Cell.dot
  have hx := hf cells h1 h2
  rw [hg.1 (f cells).1 x hx]
  exact hx

/-- A deciding pass stays deciding when a narrowing pass runs before it. -/
theorem decidesAt_comp_right {f g : Cells → Cells × Bool} {n1 n2 x : Ix}
    (hf : NarrowPass f) (hg : DecidesAt g n1 n2 x) :
    DecidesAt (passComp f g) n1 n2 x := by
  intro cells h1 h2
  show (g (f cells).1).1 x ≠ Cell.dot
  have k1 : (f cells).1 n1 = cells n1 := hf.1 cells n1 h1
  have k2 : (f cells).1 n2 = cells n2 := hf.1 cells n2 (by rw [← h2]; exact h1)
  exact hg (f cells).1 (by rw [k1]; exact h1) (by rw [k1, k2]; exact h2)

end Ohhi


namespace Ohhi

/-- The opposite of a set colour is set. -/
theorem opposite_ne_dot (c : Cell) (h : c ≠ Cell.dot) : opposite c ≠ Cell.dot := by
  cases c with
  | r => simp [opposite]
  | b => simp [opposite]
  | dot => exact absurd rfl h

/-- A scan step that changes a cell writes the opposite colour of its two
mask neighbours, which hold one same set colour and are untouched by the
write. -/
theorem ecl_step_change (mask : Mask) (st : Cells × Bool) (x' x : Ix)
    (h : (ecl_step mask st x').1 x ≠ st.1 x) :
    (ecl_step mask st x').1 (addIx x mask.1) =
      (ecl_step mask st x').1 (addIx x mask.2) ∧
    (ecl_step mask st x').1 (addIx x mask.1) ≠ Cell.dot ∧
    (ecl_step mask st x').1 x = opposite ((ecl_step mask st x').1 (addIx x mask.1)) := by
  by_cases hin : inRB (st.1 x') = true
  · exact absurd (by simp [ecl_step, hin] : (ecl_step mask st x').1 x = st.1 x) h
  · have h' : inRB (st.1 x') = false := Bool.eq_false_iff.mpr hin
    have hdot' : st.1 x' = Cell.dot := inRB_eq_false.mp h'
    by_cases h1 : st.1 (addIx x' mask.1) = Cell.r ∧ st.1 (addIx x' mask.2) = Cell.r
    · have hstep : ecl_step mask st x' = (upd st.1 x' Cell.b, true) := by
        simp [ecl_step, h', h1]
      simp only [hstep] at h ⊢
      have hxx : x = x' := by
        by_contra hne
        exact h (upd_ne st.1 x' Cell.b x hne)
      subst hxx
      have hn1 : addIx x mask.1 ≠ x := by
        intro he
        have hc := h1.1
        rw [he, hdot'] at hc
        exact absurd hc (by simp)
      have hn2 : addIx x mask.2 ≠ x := by
        intro he
        have hc := h1.2
        rw [he, hdot'] at hc
        exact absurd hc (by simp)
      rw [upd_ne st.1 x Cell.b _ hn1, upd_ne st.1 x Cell.b _ hn2, upd_self,
        h1.1, h1.2]
      exact ⟨rfl, by simp, rfl⟩
    · by_cases h2 : st.1 (addIx x' mask.1) = Cell.b ∧ st.1 (addIx x' mask.2) = Cell.b
      · have hstep : ecl_step mask st x' = (upd st.1 x' Cell.r, true) := by
          simp [ecl_step, h', h1, h2]
        simp only [hstep] at h ⊢
        have hxx : x = x' := by
          by_contra hne
          exact h (upd_ne st.1 x' Cell.r x hne)
        subst hxx
        have hn1 : addIx x mask.1 ≠ x := by
          intro he
          have hc := h2.1
          rw [he, hdot'] at hc
          exact absurd hc (by simp)
        have hn2 : addIx x mask.2 ≠ x := by
          intro he
          have hc := h2.2
          rw [he, hdot'] at hc
          exact absurd hc (by simp)
        rw [upd_ne st.1 x Cell.r _ hn1, upd_ne st.1 x Cell.r _ hn2, upd_self,
          h2.1, h2.2]
        exact ⟨rfl, by simp, rfl⟩
      · exact absurd (by simp [ecl_step, h', h1, h2] :
          (ecl_step mask st x').1 x = st.1 x) h

/-- A scan's result attributes every cell it changed to the scan's own
window: the two mask neighbours hold one same set colour and the cell holds
the opposite one, in the resulting cells. -/
theorem ecl_fold_attribution (mask : Mask) (l : List Ix) :
    ∀ (st : Cells × Bool) (x : Ix),
      (l.foldl (ecl_step mask) st).1 x ≠ st.1 x →
      WindowSets (l.foldl (ecl_step mask) st).1 x mask := by
  induction l with
  | nil => intro st x h; exact absurd rfl h
  | cons x' l ih =>
    intro st x h
    rw [List.foldl_cons] at h ⊢
    by_cases hb : (ecl_step mask st x').1 x = st.1 x
    · exact ih (ecl_step mask st x') x (by rw [hb]; exact h)
    · obtain ⟨w1, w2, w3⟩ := ecl_step_change mask st x' x hb
      have hxnd : (ecl_step mask st x').1 x ≠ Cell.dot := by
        rw [w3]
        exact opposite_ne_dot _ w2
      have k1 : (l.foldl (ecl_step mask) (ecl_step mask st x')).1 (addIx x mask.1) =
          (ecl_step mask st x').1 (addIx x mask.1) :=
        ecl_fold_frozen mask l _ _ w2
      have k2 : (l.foldl (ecl_step mask) (ecl_step mask st x')).1 (addIx x mask.2) =
          (ecl_step mask st x').1 (addIx x mask.2) :=
        ecl_fold_frozen mask l _ _ (by rw [← w1]; exact w2)
      have kx : (l.foldl (ecl_step mask) (ecl_step mask st x')).1 x =
          (ecl_step mask st x').1 x :=
        ecl_fold_frozen mask l _ _ hxnd
      exact ⟨by rw [k1, k2]; exact w1, by rw [k1]; exact w2, by rw [kx, k1]; exact w3⟩

/-- `eliminate_contiguous_line` attributes every cell it changed to its own
window. -/
theorem line_attribution (cells : Cells) (rows cols : List Int) (mask : Mask)
    (x : Ix) (h : (eliminate_contiguous_line cells rows cols mask).1 x ≠ cells x) :
    WindowSets (eliminate_contiguous_line cells rows cols mask).1 x mask :=
  ecl_fold_attribution mask (scanList rows cols) (cells, false) x h

/-- Each directional pass attributes its changes to one of the six
windows. -/
theorem attributed_elimPass (size k : Nat) : AttributedPass (elimPass size k) := by
  intro cells x h
  cases k with
  | zero => exact ⟨((1, 0), (2, 0)), by decide, line_attribution cells _ _ _ x h⟩
  | succ k => cases k with
    | zero => exact ⟨((-1, 0), (-2, 0)), by decide, line_attribution cells _ _ _ x h⟩
    | succ k => cases k with
      | zero => exact ⟨((1, 0), (-1, 0)), by decide, line_attribution cells _ _ _ x h⟩
      | succ k => cases k with
        | zero => exact ⟨((0, 1), (0, 2)), by decide, line_attribution cells _ _ _ x h⟩
        | succ k => cases k with
          | zero => exact ⟨((0, -1), (0, -2)), by decide, line_attribution cells _ _ _ x h⟩
          | succ k => exact ⟨((0, 1), (0, -1)), by decide, line_attribution cells _ _ _ x h⟩

/-- Attribution survives composition with a later narrowing pass: a change
of the first pass is frozen (all three window cells are set), a change of
the second carries its own window. -/
theorem attributed_comp {f g : Cells → Cells × Bool}
    (haf : AttributedPass f) (hg : NarrowPass g) (hag : AttributedPass g) :
    AttributedPass (passComp f g) := by
  intro cells x h
  show ∃ m ∈ sixMasks, WindowSets (g (f cells).1).1 x m
  by_cases hb : (g (f cells).1).1 x = (f cells).1 x
  · have ha : (f cells).1 x ≠ cells x := by
      rw [← hb]
      exact h
    obtain ⟨m, hm, w1, w2, w3⟩ := haf cells x ha
    have k1 : (g (f cells).1).1 (addIx x m.1) = (f cells).1 (addIx x m.1) :=
      hg.1 (f cells).1 _ w2
    have k2 : (g (f cells).1).1 (addIx x m.2) = (f cells).1 (addIx x m.2) :=
      hg.1 (f cells).1 _ (by rw [← w1]; exact w2)
    refine ⟨m, hm, by rw [k1, k2]; exact w1, by rw [k1]; exact w2, ?_⟩
    rw [hb, k1]
    exact w3
  · exact hag (f cells).1 x hb

/-- The full pass sequence attributes every cell it changed to one of the
six windows. -/
theorem attributed_elimPasses (size : Nat) : AttributedPass (elimPasses size) :=
  attributed_comp (attributed_comp (attributed_comp (attributed_comp
    (attributed_comp (attributed_elimPass size 0) (narrowPass_elimPass size 1)
      (attributed_elimPass size 1))
    (narrowPass_elimPass size 2) (attributed_elimPass size 2))
    (narrowPass_elimPass size 3) (attributed_elimPass size 3))
    (narrowPass_elimPass size 4) (attributed_elimPass size 4))
    (narrowPass_elimPass size 5) (attributed_elimPass size 5)

/-- Every cell `eliminate_contiguous` changed ends holding the opposite
colour of one of the six windows, whose two neighbour cells hold one same
set colour in the resulting cells. -/
theorem eliminate_contiguous_attribution (p : Problem) (x : Ix)
    (h : (eliminate_contiguous p).1 x ≠ p.cells x) :
    ∃ m ∈ sixMasks, WindowSets (eliminate_contiguous p).1 x m := by
  rw [eliminate_contiguous_eq] at h ⊢
  exact attributed_elimPasses p.size p.cells x h

end Ohhi

set_option maxRecDepth 10000

/-- C5 counterexample: on `pC5` the cell `(0, 2)` is undecided and its two
row neighbours behind it (offset pair `(0,-1)`, `(0,-2)`) are both blue, yet
`eliminate_contiguous` leaves it red--ward: the earlier column pass has
already set it to blue from the red pair below it, so the claimed
"opposite colour of the (row) pair" is not what the cell receives. -/
theorem eliminate_contiguous_not_pairwise_opposite :
    ¬ Ohhi.eliminateClaimStated Ohhi.pC5 := by
  intro h
  have hx := h.1 (0, 2) ((0, -1), (0, -2)) (by decide) (by decide) (by decide)
    (by decide) (by decide) (by decide) (by decide)
  have hb : (Ohhi.eliminate_contiguous Ohhi.pC5).1 (0, 2) = Ohhi.Cell.b := by decide
  rw [hb] at hx
  exact absurd hx (by decide)

/-- C5 amended: `eliminate_contiguous` applies all six 3-cell windows over
all rows and columns; every undecided cell two of whose in-grid neighbours
named by one of the six offset pairs are decided and equal is decided after
the call; every cell the call changes ends holding the opposite colour of
one of the six windows, whose two neighbour cells hold one same decided
colour in the resulting grid (so conflicting windows do not each impose
their own opposite colour — the one the code applies first wins, as the
counterexample shows); and the call returns `True` iff at least one cell
changed. -/
theorem eliminate_contiguous_applies_windows (p : Ohhi.Problem) :
    (∀ (x : Ohhi.Ix) (m : Ohhi.Mask), m ∈ Ohhi.sixMasks →
      Ohhi.inGrid p.size x →
      Ohhi.inGrid p.size (Ohhi.addIx x m.1) →
      Ohhi.inGrid p.size (Ohhi.addIx x m.2) →
      p.cells x = Ohhi.Cell.dot →
      p.cells (Ohhi.addIx x m.1) ≠ Ohhi.Cell.dot →
      p.cells (Ohhi.addIx x m.1) = p.cells (Ohhi.addIx x m.2) →
      (Ohhi.eliminate_contiguous p).1 x ≠ Ohhi.Cell.dot) ∧
    (∀ x : Ohhi.Ix, (Ohhi.eliminate_contiguous p).1 x ≠ p.cells x →
      ∃ m ∈ Ohhi.sixMasks, Ohhi.WindowSets (Ohhi.eliminate_contiguous p).1 x m) ∧
    ((Ohhi.eliminate_contiguous p).2 = true ↔
      ∃ y, (Ohhi.eliminate_contiguous p).1 y ≠ p.cells y) := by
  refine ⟨?_, ?_, ?_⟩
  · intro x m hm hgx hg1 hg2 hdot h1 h2
    have np : ∀ k, Ohhi.NarrowPass (Ohhi.elimPass p.size k) :=
      Ohhi.narrowPass_elimPass p.size
    simp only [Ohhi.sixMasks, List.mem_cons, List.not_mem_nil, or_false] at hm
    simp only [Ohhi.inGrid] at hgx
    rw [Ohhi.eliminate_contiguous_eq]
    rcases hm with rfl | rfl | rfl | rfl | rfl | rfl
    · simp only [Ohhi.inGrid, Ohhi.addIx] at hg1 hg2
      have hmem : x ∈ Ohhi.scanList (Ohhi.irange 0 (p.size - 2)) (Ohhi.irange 0 p.size) :=
        Ohhi.mem_scanList.mpr
          ⟨Ohhi.mem_irange.mpr (by omega), Ohhi.mem_irange.mpr (by omega)⟩
      have hdec : Ohhi.DecidesAt (Ohhi.elimPass p.size 0)
          (Ohhi.addIx x ((1, 0), (2, 0)).1) (Ohhi.addIx x ((1, 0), (2, 0)).2) x :=
        fun cells hh1 hh2 => Ohhi.line_decides cells _ _ ((1, 0), (2, 0)) x hmem hh1 hh2
      exact Ohhi.decidesAt_comp_left (Ohhi.decidesAt_comp_left (Ohhi.decidesAt_comp_left
        (Ohhi.decidesAt_comp_left (Ohhi.decidesAt_comp_left hdec (np 1)) (np 2))
        (np 3)) (np 4)) (np 5) p.cells h1 h2
    · simp only [Ohhi.inGrid, Ohhi.addIx] at hg1 hg2
      have hmem : x ∈ Ohhi.scanList (Ohhi.irange 2 p.size) (Ohhi.irange 0 p.size) :=
        Ohhi.mem_scanList.mpr
          ⟨Ohhi.mem_irange.mpr (by omega), Ohhi.mem_irange.mpr (by omega)⟩
      have hdec : Ohhi.DecidesAt (Ohhi.elimPass p.size 1)
          (Ohhi.addIx x ((-1, 0), (-2, 0)).1) (Ohhi.addIx x ((-1, 0), (-2, 0)).2) x :=
        fun cells hh1 hh2 => Ohhi.line_decides cells _ _ ((-1, 0), (-2, 0)) x hmem hh1 hh2
      exact Ohhi.decidesAt_comp_left (Ohhi.decidesAt_comp_left (Ohhi.decidesAt_comp_left
        (Ohhi.decidesAt_comp_left (Ohhi.decidesAt_comp_right (np 0) hdec) (np 2))
        (np 3)) (np 4)) (np 5) p.cells h1 h2
    · simp only [Ohhi.inGrid, Ohhi.addIx] at hg1 hg2
      have hmem : x ∈ Ohhi.scanList (Ohhi.irange 1 (p.size - 1)) (Ohhi.irange 0 p.size) :=
        Ohhi.mem_scanList.mpr
          ⟨Ohhi.mem_irange.mpr (by omega), Ohhi.mem_irange.mpr (by omega)⟩
      have hdec : Ohhi.DecidesAt (Ohhi.elimPass p.size 2)
          (Ohhi.addIx x ((1, 0), (-1, 0)).1) (Ohhi.addIx x ((1, 0), (-1, 0)).2) x :=
        fun cells hh1 hh2 => Ohhi.line_decides cells _ _ ((1, 0), (-1, 0)) x hmem hh1 hh2
      exact Ohhi.decidesAt_comp_left (Ohhi.decidesAt_comp_left (Ohhi.decidesAt_comp_left
        (Ohhi.decidesAt_comp_right (Ohhi.narrowPass_comp (np 0) (np 1)) hdec)
        (np 3)) (np 4)) (np 5) p.cells h1 h2
    · simp only [Ohhi.inGrid, Ohhi.addIx] at hg1 hg2
      have hmem : x ∈ Ohhi.scanList (Ohhi.irange 0 p.size) (Ohhi.irange 0 (p.size - 2)) :=
        Ohhi.mem_scanList.mpr
          ⟨Ohhi.mem_irange.mpr (by omega), Ohhi.mem_irange.mpr (by omega)⟩
      have hdec : Ohhi.DecidesAt (Ohhi.elimPass p.size 3)
          (Ohhi.addIx x ((0, 1), (0, 2)).1) (Ohhi.addIx x ((0, 1), (0, 2)).2) x :=
        fun cells hh1 hh2 => Ohhi.line_decides cells _ _ ((0, 1), (0, 2)) x hmem hh1 hh2
      exact Ohhi.decidesAt_comp_left (Ohhi.decidesAt_comp_left
        (Ohhi.decidesAt_comp_right
          (Ohhi.narrowPass_comp (Ohhi.narrowPass_comp (np 0) (np 1)) (np 2)) hdec)
        (np 4)) (np 5) p.cells h1 h2
    · simp only [Ohhi.inGrid, Ohhi.addIx] at hg1 hg2
      have hmem : x ∈ Ohhi.scanList (Ohhi.irange 0 p.size) (Ohhi.irange 2 p.size) :=
        Ohhi.mem_scanList.mpr
          ⟨Ohhi.mem_irange.mpr (by omega), Ohhi.mem_irange.mpr (by omega)⟩
      have hdec : Ohhi.DecidesAt (Ohhi.elimPass p.size 4)
          (Ohhi.addIx x ((0, -1), (0, -2)).1) (Ohhi.addIx x ((0, -1), (0, -2)).2) x :=
        fun cells hh1 hh2 => Ohhi.line_decides cells _ _ ((0, -1), (0, -2)) x hmem hh1 hh2
      exact Ohhi.decidesAt_comp_left (Ohhi.decidesAt_comp_right
        (Ohhi.narrowPass_comp (Ohhi.narrowPass_comp (Ohhi.narrowPass_comp (np 0) (np 1))
          (np 2)) (np 3)) hdec) (np 5) p.cells h1 h2
    · simp only [Ohhi.inGrid, Ohhi.addIx] at hg1 hg2
      have hmem : x ∈ Ohhi.scanList (Ohhi.irange 0 p.size) (Ohhi.irange 1 (p.size - 1)) :=
        Ohhi.mem_scanList.mpr
          ⟨Ohhi.mem_irange.mpr (by omega), Ohhi.mem_irange.mpr (by omega)⟩
      have hdec : Ohhi.DecidesAt (Ohhi.elimPass p.size 5)
          (Ohhi.addIx x ((0, 1), (0, -1)).1) (Ohhi.addIx x ((0, 1), (0, -1)).2) x :=
        fun cells hh1 hh2 => Ohhi.line_decides cells _ _ ((0, 1), (0, -1)) x hmem hh1 hh2
      exact Ohhi.decidesAt_comp_right
        (Ohhi.narrowPass_comp (Ohhi.narrowPass_comp (Ohhi.narrowPass_comp
          (Ohhi.narrowPass_comp (np 0) (np 1)) (np 2)) (np 3)) (np 4)) hdec
        p.cells h1 h2
  · exact fun x hx => Ohhi.eliminate_contiguous_attribution p x hx
  · exact Ohhi.eliminate_contiguous_flag p

/-- Witness for `eliminate_contiguous_applies_windows`: on `pW5` the cell
`(0, 2)` has the red pair behind it; the call decides it, the change is
attributed to one of the six windows, and a change is reported. -/
theorem eliminate_contiguous_applies_windows_witness :
    (Ohhi.eliminate_contiguous Ohhi.pW5).1 (0, 2) ≠ Ohhi.Cell.dot ∧
    (∃ m ∈ Ohhi.sixMasks,
      Ohhi.WindowSets (Ohhi.eliminate_contiguous Ohhi.pW5).1 (0, 2) m) ∧
    (Ohhi.eliminate_contiguous Ohhi.pW5).2 = true :=
  ⟨(eliminate_contiguous_applies_windows Ohhi.pW5).1 (0, 2) ((0, -1), (0, -2))
      (by decide) (by decide) (by decide) (by decide) (by decide) (by decide) (by decide),
    (eliminate_contiguous_applies_windows Ohhi.pW5).2.1 (0, 2) (by decide),
    (eliminate_contiguous_applies_windows Ohhi.pW5).2.2.mpr ⟨(0, 2), by decide⟩⟩


namespace Ohhi

/-- `inRB` is true exactly on the set cells. -/
theorem inRB_eq_true {c : Cell} : inRB c = true ↔ c ≠ Cell.dot := by
  cases c <;> simp [inRB]

/-- `isDot` is false exactly on the set cells. -/
theorem isDot_eq_false {c : Cell} : isDot c = false ↔ c ≠ Cell.dot := by
  cases c <;> simp [isDot]

/-- Membership in the natural `range(a, b)`. -/
theorem mem_rangeFrom {a b j : Nat} : j ∈ rangeFrom a b ↔ a ≤ j ∧ j < b := by
  simp only [rangeFrom, List.mem_map, List.mem_range]
  constructor
  · rintro ⟨i, hi, rfl⟩
    omega
  · rintro ⟨h1, h2⟩
    exact ⟨j - a, by omega, by omega⟩

/-- Every grid coordinate pair appears in the key list of the `cells` dict. -/
theorem mem_gridIx {size r c : Nat} (hr : r < size) (hc : c < size) :
    (((r : Int), (c : Int)) : Ix) ∈ gridIx size := by
  simp only [gridIx, List.mem_flatMap, List.mem_map, List.mem_range]
  exact ⟨r, hr, c, hc, rfl⟩

/-- On a `solved`-checked problem every grid cell is set. -/
theorem solvedB_all {p : Problem} (h : solvedB p = true) (r c : Nat)
    (hr : r < p.size) (hc : c < p.size) :
    p.cells ((r : Int), (c : Int)) ≠ Cell.dot := by
  rw [solvedB, List.all_eq_true] at h
  exact inRB_eq_true.mp (h _ (mem_gridIx hr hc))

/-- Reading a row list at a position inside the grid. -/
theorem rowOf_getD (cells : Cells) (size : Nat) (r pos : Nat) (h : pos < size) :
    (rowOf cells size r).getD pos Cell.dot = cells ((r : Int), (pos : Int)) := by
  rw [rowOf, List.getD_eq_getElem?_getD, List.getElem?_map, List.getElem?_range h]
  rfl

/-- Reading a column list at a position inside the grid. -/
theorem colOf_getD (cells : Cells) (size : Nat) (c pos : Nat) (h : pos < size) :
    (colOf cells size c).getD pos Cell.dot = cells ((pos : Int), (c : Int)) := by
  rw [colOf, List.getD_eq_getElem?_getD, List.getElem?_map, List.getElem?_range h]
  rfl

/-- A row list has `size` entries. -/
theorem rowOf_length (cells : Cells) (size : Nat) (r : Nat) :
    (rowOf cells size r).length = size := by
  simp [rowOf]

/-- A column list has `size` entries. -/
theorem colOf_length (cells : Cells) (size : Nat) (c : Nat) :
    (colOf cells size c).length = size := by
  simp [colOf]

/-- On a list of set cells the red and blue counts add up to the length. -/
theorem count_r_add_b (l : List Cell) (h : ∀ x ∈ l, x ≠ Cell.dot) :
    countColour l Cell.r + countColour l Cell.b = l.length := by
  induction l with
  | nil => rfl
  | cons a l ih =>
    have ha := h a (List.mem_cons_self a l)
    have ihl := ih (fun x hx => h x (List.mem_cons_of_mem a hx))
    cases a with
    | r => simp [countColour, List.filter_cons] at ihl ⊢; omega
    | b => simp [countColour, List.filter_cons] at ihl ⊢; omega
    | dot => exact absurd rfl ha

/-- Splitting the violation scan of `evaluate_status`: when no violation is
found, every per-line check and every duplicate-pair check passes. -/
theorem no_violation_parts {p : Problem} (hv : anyViolationB p = false)
    (i : Nat) (hi : i < p.size) :
    lineViolationB p.size (colOf p.cells p.size i) = false ∧
    lineViolationB p.size (rowOf p.cells p.size i) = false ∧
    (∀ j, i < j → j < p.size →
      dupViolationB p.size (colOf p.cells p.size i) (colOf p.cells p.size j) = false ∧
      dupViolationB p.size (rowOf p.cells p.size i) (rowOf p.cells p.size j) = false) := by
  rw [anyViolationB, List.any_eq_false] at hv
  have h2 := hv i (List.mem_range.mpr hi)
  simp only [Bool.or_eq_true, not_or, List.any_eq_true, not_exists, not_and] at h2
  obtain ⟨⟨⟨hcol, hcdup⟩, hrow⟩, hrdup⟩ := h2
  refine ⟨Bool.eq_false_iff.mpr hcol, Bool.eq_false_iff.mpr hrow, ?_⟩
  intro j hij hj
  have hjm : j ∈ rangeFrom (i + 1) p.size := mem_rangeFrom.mpr ⟨by omega, hj⟩
  exact ⟨Bool.eq_false_iff.mpr (hcdup j hjm), Bool.eq_false_iff.mpr (hrdup j hjm)⟩

/-- Unpacking a passed per-line check: bounded colour counts and no triple. -/
theorem line_ok_parts {size : Nat} {l : List Cell}
    (h : lineViolationB size l = false) :
    countColour l Cell.r ≤ size / 2 ∧ countColour l Cell.b ≤ size / 2 ∧
    hasTriple size l = false := by
  rw [lineViolationB] at h
  simp only [Bool.or_eq_false_iff, decide_eq_false_iff_not, not_lt] at h
  exact ⟨h.1.1, h.1.2, h.2⟩

/-- Unpacking a passed duplicate-pair check. -/
theorem dup_ok_parts {size : Nat} {l1 l2 : List Cell}
    (h : dupViolationB size l1 l2 = false) :
    sameColour l1 l2 Cell.r < size / 2 ∧ sameColour l1 l2 Cell.b < size / 2 := by
  rw [dupViolationB] at h
  simp only [Bool.or_eq_false_iff, decide_eq_false_iff_not, not_le] at h
  exact h

/-- Unpacking a passed triple check at one window. -/
theorem no_triple_at {size : Nat} {l : List Cell} (h : hasTriple size l = false)
    (pos : Nat) (hpos : pos + 2 < size) :
    ¬(l.getD pos Cell.dot = l.getD (pos + 1) Cell.dot ∧
      l.getD (pos + 1) Cell.dot = l.getD (pos + 2) Cell.dot ∧
      l.getD (pos + 2) Cell.dot ≠ Cell.dot) := by
  rw [hasTriple, List.any_eq_false] at h
  have h2 := h pos (List.mem_range.mpr (by omega))
  simp only [Bool.and_eq_true, decide_eq_true_eq, Bool.not_eq_true', not_and] at h2
  rintro ⟨e1, e2, hnd⟩
  exact absurd (h2 ⟨e1, e2⟩) (by simpa [isDot_eq_false] using hnd)

end Ohhi

/-- C4: whenever `evaluate_status` upgrades an unsolved problem to
`'solved'`, every grid cell is decided, every row and column holds exactly
`size/2` cells of each colour, no three consecutive equal decided cells
occur on any row or column, and no two rows (or two columns) share
`size/2` or more matching decided cells of one colour. -/
theorem evaluate_status_solved_sound (p : Ohhi.Problem)
    (hstate : p.state = PState.unsolved)
    (hsolved : (Ohhi.evaluate_status p).state = PState.solved) :
    (∀ r c : Nat, r < p.size → c < p.size →
      p.cells ((r : Int), (c : Int)) ≠ Ohhi.Cell.dot) ∧
    (∀ i : Nat, i < p.size →
      Ohhi.countColour (Ohhi.rowOf p.cells p.size i) Ohhi.Cell.r = p.size / 2 ∧
      Ohhi.countColour (Ohhi.rowOf p.cells p.size i) Ohhi.Cell.b = p.size / 2 ∧
      Ohhi.countColour (Ohhi.colOf p.cells p.size i) Ohhi.Cell.r = p.size / 2 ∧
      Ohhi.countColour (Ohhi.colOf p.cells p.size i) Ohhi.Cell.b = p.size / 2) ∧
    (∀ i pos : Nat, i < p.size → pos + 2 < p.size →
      ¬(p.cells ((i : Int), (pos : Int)) = p.cells ((i : Int), ((pos + 1 : Nat) : Int)) ∧
        p.cells ((i : Int), ((pos + 1 : Nat) : Int)) =
          p.cells ((i : Int), ((pos + 2 : Nat) : Int)) ∧
        p.cells ((i : Int), ((pos + 2 : Nat) : Int)) ≠ Ohhi.Cell.dot) ∧
      ¬(p.cells ((pos : Int), (i : Int)) = p.cells (((pos + 1 : Nat) : Int), (i : Int)) ∧
        p.cells (((pos + 1 : Nat) : Int), (i : Int)) =
          p.cells (((pos + 2 : Nat) : Int), (i : Int)) ∧
        p.cells (((pos + 2 : Nat) : Int), (i : Int)) ≠ Ohhi.Cell.dot)) ∧
    (∀ i j : Nat, i < j → j < p.size →
      Ohhi.sameColour (Ohhi.rowOf p.cells p.size i) (Ohhi.rowOf p.cells p.size j)
        Ohhi.Cell.r < p.size / 2 ∧
      Ohhi.sameColour (Ohhi.rowOf p.cells p.size i) (Ohhi.rowOf p.cells p.size j)
        Ohhi.Cell.b < p.size / 2 ∧
      Ohhi.sameColour (Ohhi.colOf p.cells p.size i) (Ohhi.colOf p.cells p.size j)
        Ohhi.Cell.r < p.size / 2 ∧
      Ohhi.sameColour (Ohhi.colOf p.cells p.size i) (Ohhi.colOf p.cells p.size j)
        Ohhi.Cell.b < p.size / 2) := by
  have hparts : Ohhi.anyViolationB p = false ∧ Ohhi.solvedB p = true := by
    by_cases h1 : Ohhi.anyViolationB p = true
    · rw [Ohhi.evaluate_status, if_pos h1] at hsolved
      exact absurd hsolved (by simp)
    · have h1' : Ohhi.anyViolationB p = false := Bool.eq_false_iff.mpr h1
      by_cases h2 : Ohhi.solvedB p = true
      · exact ⟨h1', h2⟩
      · rw [Ohhi.evaluate_status, if_neg h1, if_neg h2] at hsolved
        exact absurd (hstate ▸ hsolved) (by simp)
  have hall : ∀ r c : Nat, r < p.size → c < p.size →
      p.cells ((r : Int), (c : Int)) ≠ Ohhi.Cell.dot :=
    fun r c hr hc => Ohhi.solvedB_all hparts.2 r c hr hc
  have hrow_mem : ∀ i : Nat, i < p.size →
      ∀ x ∈ Ohhi.rowOf p.cells p.size i, x ≠ Ohhi.Cell.dot := by
    intro i hi x hx
    simp only [Ohhi.rowOf, List.mem_map, List.mem_range] at hx
    obtain ⟨col, hcol, rfl⟩ := hx
    exact hall i col hi hcol
  have hcol_mem : ∀ i : Nat, i < p.size →
      ∀ x ∈ Ohhi.colOf p.cells p.size i, x ≠ Ohhi.Cell.dot := by
    intro i hi x hx
    simp only [Ohhi.colOf, List.mem_map, List.mem_range] at hx
    obtain ⟨row, hrow, rfl⟩ := hx
    exact hall row i hrow hi
  refine ⟨hall, ?_, ?_, ?_⟩
  · intro i hi
    obtain ⟨hcv, hrv, -⟩ := Ohhi.no_violation_parts hparts.1 i hi
    obtain ⟨hcr, hcb, -⟩ := Ohhi.line_ok_parts hcv
    obtain ⟨hrr, hrb, -⟩ := Ohhi.line_ok_parts hrv
    have hrsum := Ohhi.count_r_add_b _ (hrow_mem i hi)
    have hcsum := Ohhi.count_r_add_b _ (hcol_mem i hi)
    rw [Ohhi.rowOf_length] at hrsum
    rw [Ohhi.colOf_length] at hcsum
    refine ⟨by omega, by omega, by omega, by omega⟩
  · intro i pos hi hpos
    obtain ⟨hcv, hrv, -⟩ := Ohhi.no_violation_parts hparts.1 i hi
    have htr := Ohhi.no_triple_at (Ohhi.line_ok_parts hrv).2.2 pos hpos
    have htc := Ohhi.no_triple_at (Ohhi.line_ok_parts hcv).2.2 pos hpos
    rw [Ohhi.rowOf_getD p.cells p.size i pos (by omega),
      Ohhi.rowOf_getD p.cells p.size i (pos + 1) (by omega),
      Ohhi.rowOf_getD p.cells p.size i (pos + 2) (by omega)] at htr
    rw [Ohhi.colOf_getD p.cells p.size i pos (by omega),
      Ohhi.colOf_getD p.cells p.size i (pos + 1) (by omega),
      Ohhi.colOf_getD p.cells p.size i (pos + 2) (by omega)] at htc
    exact ⟨htr, htc⟩
  · intro i j hij hj
    obtain ⟨-, -, hdup⟩ := Ohhi.no_violation_parts hparts.1 i (by omega)
    obtain ⟨hdc, hdr⟩ := hdup j hij hj
    obtain ⟨hdc1, hdc2⟩ := Ohhi.dup_ok_parts hdc
    obtain ⟨hdr1, hdr2⟩ := Ohhi.dup_ok_parts hdr
    exact ⟨hdr1, hdr2, hdc1, hdc2⟩

/-- Witness for `evaluate_status_solved_sound`: the solved 2-by-2 puzzle
`rb / br`, on which `evaluate_status` sets `'solved'` and the first row
holds exactly one cell of each colour. -/
theorem evaluate_status_solved_sound_witness :
    Ohhi.pSolved.state = PState.unsolved ∧
    (Ohhi.evaluate_status Ohhi.pSolved).state = PState.solved ∧
    Ohhi.countColour (Ohhi.rowOf Ohhi.pSolved.cells Ohhi.pSolved.size 0)
      Ohhi.Cell.r = Ohhi.pSolved.size / 2 :=
  ⟨rfl, by decide,
    ((evaluate_status_solved_sound Ohhi.pSolved rfl (by decide)).2.1 0 (by decide)).1⟩

namespace Ohhi

/-- On a size-0 grid every pass of `eliminate_contiguous` scans nothing. -/
theorem eliminate_contiguous_size_zero (p : Problem) (h : p.size = 0) :
    eliminate_contiguous p = (p.cells, false) := by
  simp [eliminate_contiguous, eliminate_contiguous_line, scanList, irange, h]

/-- On a non-empty grid `constraint_propagation` dies inside its first cycle,
on the `TypeError` of `full_colour`, before producing anything. -/
theorem constraint_propagation_err (pfuel : Nat) (p : Problem)
    (h : p.size ≠ 0) :
    constraint_propagation (pfuel + 1) p = .error PyErr.typeError := by
  simp only [constraint_propagation]
  rw [full_colour_eq, if_neg h]

/-- On a size-0 grid `constraint_propagation` is an immediate no-change
cycle. -/
theorem constraint_propagation_size_zero (pfuel : Nat) (p : Problem)
    (h : p.size = 0) :
    constraint_propagation (pfuel + 1) p = .ok p := by
  simp only [constraint_propagation]
  rw [eliminate_contiguous_size_zero p h]
  rw [full_colour_eq, if_pos h]
  rfl

/-- On a size-0 grid `evaluate_status` reports `'solved'`: no line exists to
violate anything and the empty cell dict is all set. -/
theorem evaluate_status_size_zero (p : Problem) (h : p.size = 0) :
    evaluate_status p = { p with state := PState.solved } := by
  have hv : anyViolationB p = false := by simp [anyViolationB, h]
  have hs : solvedB p = true := by simp [solvedB, gridIx, h]
  rw [evaluate_status, if_neg (by simp [hv]), if_pos hs]

/-- On a non-empty grid `solve` propagates the `TypeError` of
`full_colour`. -/
theorem solve_err (pfuel fuel : Nat) (p : Problem) (h : p.size ≠ 0) :
    solve (pfuel + 1) (fuel + 1) p = .error PyErr.typeError := by
  rw [solve, constraint_propagation_err pfuel p h]

/-- On a size-0 grid `solve` returns the problem marked `'solved'`. -/
theorem solve_size_zero (pfuel fuel : Nat) (p : Problem) (h : p.size = 0) :
    solve (pfuel + 1) (fuel + 1) p = .ok { p with state := PState.solved } := by
  rw [solve, constraint_propagation_size_zero pfuel p h]
  show (if (evaluate_status p).state = PState.solved ∨
      (evaluate_status p).state = PState.infeasible
    then Except.ok (evaluate_status p)
    else solve_branch (solve (pfuel + 1) fuel) (evaluate_status p)) = _
  rw [evaluate_status_size_zero p h]
  rw [if_pos (Or.inl rfl)]

end Ohhi

/-- C9: `solve` is deterministic — two problems that are fresh copies of the
same problem (same size and state, same cell values on every grid key,
possibly different map objects outside the grid) run to the same outcome:
the same error, or problems with the same state and the same grid cells. -/
theorem solve_deterministic (pfuel fuel : Nat) (p1 p2 : Ohhi.Problem)
    (hsz : p1.size = p2.size) (_hst : p1.state = p2.state)
    (hcells : ∀ rc : Ohhi.Ix, Ohhi.inGrid p1.size rc → p1.cells rc = p2.cells rc) :
    Ohhi.resEquiv (Ohhi.solve pfuel fuel p1) (Ohhi.solve pfuel fuel p2) := by
  cases fuel with
  | zero => exact rfl
  | succ fuel =>
    cases pfuel with
    | zero => exact rfl
    | succ pfuel =>
      by_cases h : p1.size = 0
      · have h2 : p2.size = 0 := hsz ▸ h
        rw [Ohhi.solve_size_zero pfuel fuel p1 h, Ohhi.solve_size_zero pfuel fuel p2 h2]
        exact ⟨hsz, rfl, fun rc hrc => hcells rc hrc⟩
      · have h2 : p2.size ≠ 0 := fun hh => h (by rw [hsz]; exact hh)
        rw [Ohhi.solve_err pfuel fuel p1 h, Ohhi.solve_err pfuel fuel p2 h2]
        exact rfl

/-- Witness for `solve_deterministic`: two fresh copies of the empty 2-by-2
puzzle whose backing maps differ only outside the grid run to the same
outcome. -/
theorem solve_deterministic_witness :
    Ohhi.resEquiv (Ohhi.solve 1 1 Ohhi.pAllDots2) (Ohhi.solve 1 1 Ohhi.pAllDots2') :=
  solve_deterministic 1 1 Ohhi.pAllDots2 Ohhi.pAllDots2' rfl rfl
    (by
      intro rc hrc
      have hne : rc ≠ ((5 : Int), (5 : Int)) := by
        rintro rfl
        simp only [Ohhi.inGrid, Ohhi.pAllDots2] at hrc
        omega
      simp [Ohhi.pAllDots2, Ohhi.pAllDots2', hne])

/-- C10: `read_problem` drops every character outside `'.rb'` (newlines
included) from each line before any validation; its assertion only compares
each line's count of alphabet characters with the number of lines.  A line
with foreign characters is accepted whenever that count matches (second
conjunct: a 2-line file with `#`, `x` and newlines loads fine) and the only
rejection is the `AssertionError` on a count mismatch (first conjunct). -/
theorem read_problem_filters_before_checking :
    (∀ input : List (List Char),
      (Ohhi.read_problem input = .error PyErr.assertionError ↔
        ¬ ∀ line ∈ input, (Ohhi.keepAlphabet line).length = input.length)) ∧
    (∃ p : Ohhi.Problem, Ohhi.read_problem Ohhi.exInput = .ok p ∧ p.size = 2 ∧
      p.cells (0, 0) = Ohhi.Cell.r ∧ p.cells (0, 1) = Ohhi.Cell.b ∧
      p.cells (1, 0) = Ohhi.Cell.dot ∧ p.cells (1, 1) = Ohhi.Cell.dot ∧
      p.state = PState.unsolved) := by
  constructor
  · intro input
    by_cases hall : (input.map Ohhi.keepAlphabet).all
        (fun v => decide (v.length = (input.map Ohhi.keepAlphabet).length)) = true
    · rw [Ohhi.read_problem, if_pos hall]
      rw [List.all_eq_true] at hall
      constructor
      · intro h
        exact absurd h (by simp)
      · intro h
        exfalso
        refine h ?_
        intro line hline
        have := hall (Ohhi.keepAlphabet line) (List.mem_map_of_mem _ hline)
        simpa [List.length_map] using this
    · rw [Ohhi.read_problem, if_neg hall]
      constructor
      · intro _
        intro hc
        refine hall ?_
        rw [List.all_eq_true]
        intro v hv
        rw [List.mem_map] at hv
        obtain ⟨line, hline, rfl⟩ := hv
        simpa [List.length_map] using hc line hline
      · intro _
        rfl
  · refine ⟨_, rfl, rfl, by decide, by decide, by decide, by decide, rfl⟩

/-- Witness for `read_problem_filters_before_checking`: the mismatching file
`badInput` (a 2-character line and a 1-character line) is rejected with the
`AssertionError`. -/
theorem read_problem_filters_before_checking_witness :
    Ohhi.read_problem Ohhi.badInput = .error PyErr.assertionError :=
  (read_problem_filters_before_checking.1 Ohhi.badInput).mpr (by decide)
